import Mathlib

/-!
Verification of the wendy avatar core pipeline against its specification.

The development shallowly embeds the JavaScript sources:
  * `src/wendy-avatar/src/chat-manager.js`   (ChatManager: channel logs, typing session)
  * `src/wendy-avatar/src/mock-data.js`      (TypingController: keypress queue, arm goals)
  * `src/wendy-sites/backend/static/avatar/src/ik.js` (solveTwoBoneIK)
  * `src/unnamed/part_008`                   (orchestrator: state-transition queue)
  * `src/unnamed/part_010`                   (stream classifier: classifyEvent)

Discrete state (queues, logs, sessions) is embedded computably; the float
geometry of the typing controller and the IK solver is embedded over the real
numbers (JavaScript numbers modelled as exact reals).  Asynchronous
`async/await` code is embedded as an explicit coroutine: the synchronous
prefix of `typeMessage` is one function, and the remainder of its body (the
per-character loop together with the trailing sleep and `finishTyping`) is a
step function that other operations (abort, rush, state transitions) can
interleave with at the `await` points.  Calls into pure display sinks
(monitor, camera, thought bubble, rig visuals) are recorded as events.
-/

namespace Wendy

/-! ### ChatManager data model (chat-manager.js) -/

/-- A JavaScript Map key as used by the per-channel message map: either the
numeric `message_id` of a Discord message or a synthesized string key. -/
inductive MsgKey where
  | num : Nat → MsgKey
  | str : String → MsgKey
deriving DecidableEq, Repr

/-- A raw message record as delivered by a check_messages response
(`receiveMessages` input).  `message_id` is absent for some sources;
`content` may be absent as well (JavaScript `undefined`). -/
structure RawMsg where
  message_id : Option Nat
  author : String
  content : Option String
  timestamp : Int
deriving DecidableEq, Repr

/-- A stored channel-log entry (chat-manager.js `channel.messages` values).
Timestamps are rational because `finishTyping` stores `Date.now() / 1000`. -/
structure StoredMsg where
  id : MsgKey
  author : String
  content : Option String
  timestamp : ℚ
deriving DecidableEq, Repr

/-- One channel's log: a Map (association list in insertion order) plus the
`order` array of message keys in display order. -/
structure Channel where
  messages : List (MsgKey × StoredMsg)
  order : List MsgKey
deriving DecidableEq, Repr

/-- The empty channel created lazily by `getChannel`. -/
def Channel.empty : Channel := ⟨[], []⟩

/-- Map.has on the message map. -/
def chanHas (ch : Channel) (k : MsgKey) : Bool :=
  (ch.messages.find? (fun p => decide (p.1 = k))).isSome

/-- Map.get on the message map. -/
def chanGet (ch : Channel) (k : MsgKey) : Option StoredMsg :=
  (ch.messages.find? (fun p => decide (p.1 = k))).map (·.2)

/-- Map.set on the message map: replace in place when the key exists,
otherwise append in insertion order. -/
def mapSet : List (MsgKey × StoredMsg) → MsgKey → StoredMsg → List (MsgKey × StoredMsg)
  | [], k, v => [(k, v)]
  | (k0, v0) :: rest, k, v =>
      if k0 = k then (k, v) :: rest else (k0, v0) :: mapSet rest k v

/-- Map.delete on the message map. -/
def mapDelete (l : List (MsgKey × StoredMsg)) (k : MsgKey) : List (MsgKey × StoredMsg) :=
  l.filter (fun p => decide (p.1 ≠ k))

/-- The typing-session record `this.typing`.  The source stores the text as a
JavaScript string; we store its character list.  `hasResolve` models whether a
promise resolver is installed.  The `rushed` field is the spec-modelled
extension used by `rushTyping` (see below). -/
structure Typing where
  active : Bool
  text : List Char
  index : Nat
  aborted : Bool
  rushed : Bool
  hasResolve : Bool
deriving DecidableEq, Repr

/-- The typing record in its cleared form, as built by the constructor and by
`finishTyping` / `abortTyping`. -/
def Typing.cleared : Typing :=
  { active := false, text := [], index := 0, aborted := false, rushed := false
    hasResolve := false }

/-- ChatManager state.  The monitor is a pure display sink (out of the core's
state, per the spec's interface section), so monitor calls are not state. -/
structure CM where
  channels : List (String × Channel)
  currentChannelId : Option String
  typing : Typing
  sessionCount : Nat
  lastProcessedSession : Int
  pendingMessage : Option (String × String)
deriving DecidableEq, Repr

/-- Callback invocations and scheduler waits observable from the core, in
program order.  Display-sink calls (monitor, camera, overlay, thought bubble,
rig visuals, choreography starts) are recorded as events as well. -/
inductive Ev where
  | typingStartEv (text : List Char)
  | typeCharEv (c : Char)
  | typingEndEv
  | resolveEv
  | sleepEv (ms : Nat)
  | camEv (state : String)
  | overlayClearEv
  | overlayShowEv (kind : String)
  | bubbleShowEv
  | bubbleHideEv
  | thinkStartEv
  | thinkStopEv
  | readStartEv
  | readStopEv
  | randomTypingStopEv
  | choreoMouseTypeEv
  | choreoMouseEv
  | choreoBurstEv
  | tcClearQueueEv
  | tcReturnToRestEv
  | sessionEndEv
deriving DecidableEq, Repr

/-- Look up a channel without creating it (used to state theorems). -/
def channelOf (cm : CM) (cid : String) : Channel :=
  ((cm.channels.find? (fun p => decide (p.1 = cid))).map (·.2)).getD Channel.empty

/-- Store a channel object back under its id (JavaScript mutates the object
returned by `getChannel` in place; we re-store it). -/
def setChan (cm : CM) (cid : String) (ch : Channel) : CM :=
  { cm with channels :=
      if (cm.channels.find? (fun p => decide (p.1 = cid))).isSome then
        cm.channels.map (fun p => if p.1 = cid then (cid, ch) else p)
      else cm.channels ++ [(cid, ch)] }

/-- `getChannel`: create the channel record on first reference. -/
def getChannel (cm : CM) (cid : String) : CM × Channel :=
  match (cm.channels.find? (fun p => decide (p.1 = cid))).map (·.2) with
  | some ch => (cm, ch)
  | none => ({ cm with channels := cm.channels ++ [(cid, Channel.empty)] }, Channel.empty)

/-- The template `author-timestamp-slice` used when a message has no usable
`message_id`.  JavaScript renders an absent `content` as the string
"undefined" inside the template literal. -/
def sliceContent : Option String → String
  | some s => s.take 20
  | none => "undefined"

/-- The synthesized fallback key. -/
def synthKey (m : RawMsg) : MsgKey :=
  MsgKey.str (m.author ++ "-" ++ toString m.timestamp ++ "-" ++ sliceContent m.content)

/-- `msg.message_id || template`: a present but zero id is falsy in
JavaScript and also falls back to the synthesized key. -/
def keyOf (m : RawMsg) : MsgKey :=
  match m.message_id with
  | some n => if n = 0 then synthKey m else MsgKey.num n
  | none => synthKey m

/-- The body of the `for (const msg of messages)` loop in `receiveMessages`:
skip keys that are already present, otherwise store and push. -/
def receiveLoop : Channel → List RawMsg → Channel
  | ch, [] => ch
  | ch, m :: rest =>
      let k := keyOf m
      if chanHas ch k then receiveLoop ch rest
      else
        receiveLoop
          { messages := mapSet ch.messages k ⟨k, m.author, m.content, (m.timestamp : ℚ)⟩
            order := ch.order ++ [k] } rest

/-- One iteration of the trim loop: shift the oldest id and delete it. -/
def dropOldest (ch : Channel) : Channel :=
  match ch.order with
  | [] => ch
  | oldId :: rest => { messages := mapDelete ch.messages oldId, order := rest }

/-- `while (channel.order.length > 50) ...` with explicit fuel; each
iteration shortens `order`, so `order.length` rounds suffice. -/
def trimGo : Nat → Channel → Channel
  | 0, ch => ch
  | n + 1, ch => if ch.order.length > 50 then trimGo n (dropOldest ch) else ch

/-- Trim old messages beyond the 50-entry FIFO cap. -/
def trimChannel (ch : Channel) : Channel := trimGo ch.order.length ch

/-- `receiveMessages(channelId, messages, isInitialLoad)`.  A missing or
non-array `messages` argument returns immediately; `isInitialLoad` is not
read by the body (display refresh is a sink call, not state). -/
def receiveMessages (cm : CM) (channelId : String) (messages : Option (List RawMsg))
    (_isInitialLoad : Bool) : CM :=
  match messages with
  | none => cm
  | some msgs =>
      let g := getChannel cm channelId
      setChan g.1 channelId (trimChannel (receiveLoop g.2 msgs))

/-! ### Typing session operations (chat-manager.js) -/

/-- `isTyping()`. -/
def isTyping (cm : CM) : Bool := cm.typing.active

/-- `abortTyping()`: no-op when no session is active; otherwise set the abort
flag on the current record, replace the record with a cleared one, invoke the
end callback and resolve the pending promise.  (The monitor clear is a
display-sink call.)  Note that the replacement record has `aborted = false`:
the still-running `typeMessage` loop reads the fresh record. -/
def abortTyping (cm : CM) : CM × List Ev :=
  if cm.typing.active then
    ({ cm with typing := Typing.cleared },
      Ev.typingEndEv :: (if cm.typing.hasResolve then [Ev.resolveEv] else []))
  else (cm, [])

/-- `finishTyping()`: no-op when no session is active; otherwise clear the
typing record, commit the session text to the current channel's log under the
key "wendy-" ++ now (a `Date.now()` stamp), invoke the end callback and
resolve.  `now` is the millisecond clock passed in explicitly. -/
def finishTyping (now : Nat) (cm : CM) : CM × List Ev :=
  if cm.typing.active then
    let text := cm.typing.text
    let hasRes := cm.typing.hasResolve
    let cm1 := { cm with typing := Typing.cleared }
    let endEvs := Ev.typingEndEv :: (if hasRes then [Ev.resolveEv] else [])
    match cm1.currentChannelId with
    | some cid =>
        let g := getChannel cm1 cid
        let k := MsgKey.str ("wendy-" ++ toString now)
        let ch2 : Channel :=
          { messages := mapSet g.2.messages k ⟨k, "Wendy", some (String.mk text), (now : ℚ) / 1000⟩
            order := g.2.order ++ [k] }
        (setChan g.1 cid ch2, endEvs)
    | none => (cm1, endEvs)
  else (cm, [])

/-- `addWendyMessage(content)`: direct commit without animation. -/
def addWendyMessage (now : Nat) (content : String) (cm : CM) : CM :=
  match cm.currentChannelId with
  | none => cm
  | some cid =>
      let g := getChannel cm cid
      let k := MsgKey.str ("wendy-" ++ toString now)
      setChan g.1 cid
        { messages := mapSet g.2.messages k ⟨k, "Wendy", some content, (now : ℚ) / 1000⟩
          order := g.2.order ++ [k] }

/-- Modelled from the spec: `rushTyping()` and the `rushed` session flag are
not present in src/wendy-avatar/src/chat-manager.js; the chat-manager.js
actually imported by the orchestrator (the deployed copy under
wendy-sites/backend/static/avatar/src/) is not under src/, and the spec says
the method "sets a flag that shortens the per-character delay for the
remainder of the session only".  We model it as setting `rushed` on the
active session. -/
def rushTyping (cm : CM) : CM :=
  if cm.typing.active then { cm with typing := { cm.typing with rushed := true } } else cm

/-- Modelled from the spec: the numeric value of the shortened per-character
delay is in the deployed chat-manager.js, not under src/; any value smaller
than the normal delay fits the spec's "shortens the per-character delay". -/
def rushedCharDelay : Nat := 30

/-- The per-character wait of the typing loop: the spec-modelled rush flag
shortens the delay for the remainder of the session. -/
def charDelayOf (cd : Nat) (cm : CM) : Nat :=
  if cm.typing.rushed then rushedCharDelay else cd

/-- The coroutine part of `typeMessage` after its synchronous prefix: the
captured message text and the captured `charDelay` argument. -/
structure CoState where
  text : List Char
  charDelay : Nat
deriving DecidableEq, Repr

/-- The remainder of the `typeMessage` body from loop index `i` on, run to
completion without interference: for each remaining character, re-check the
abort flag on the current typing record (a fresh record after an abort has
`aborted = false`), store the loop index, fire the per-character callback and
sleep; afterwards sleep 300 ms and call `finishTyping`.  `rem` is the list of
characters not yet typed (`text.drop i` in an undisturbed run). -/
def coLoop (cd now : Nat) : List Char → Nat → CM → CM × List Ev
  | [], _, cm =>
      let r := finishTyping now cm
      (r.1, Ev.sleepEv 300 :: r.2)
  | c :: rest, i, cm =>
      if cm.typing.aborted then
        let r := finishTyping now cm
        (r.1, Ev.sleepEv 300 :: r.2)
      else
        let cm1 := { cm with typing := { cm.typing with index := i } }
        let r := coLoop cd now rest (i + 1) cm1
        (r.1, Ev.typeCharEv c :: Ev.sleepEv (charDelayOf cd cm1) :: r.2)

/-- The synchronous prefix of `typeMessage(text, charDelay)`: refuse when a
session is active, refuse falsy text (absent or empty), otherwise install the
session record, fire the start callback (monitor start is a sink call),
install the promise resolver, and hand the rest of the body over as a
coroutine. -/
def typeMessageStart (text : Option String) (cd : Nat) (cm : CM) :
    CM × List Ev × Option CoState :=
  if cm.typing.active then (cm, [], none)
  else
    match text with
    | none => (cm, [], none)
    | some t =>
        if t = "" then (cm, [], none)
        else
          let cm1 : CM :=
            { cm with typing :=
                { active := true, text := t.data, index := 0, aborted := false
                  rushed := false, hasResolve := true } }
          (cm1, [Ev.typingStartEv t.data], some ⟨t.data, cd⟩)

/-- An interleaved run of the typing coroutine in which `rushTyping` is
invoked at the await point after `k` completed loop iterations (or right
before the final sleep when fewer than `k` iterations remain). -/
def coLoopRush (cd now : Nat) : Nat → List Char → Nat → CM → CM × List Ev
  | 0, rem, i, cm => coLoop cd now rem i (rushTyping cm)
  | _ + 1, [], i, cm => coLoop cd now [] i (rushTyping cm)
  | k + 1, c :: rest, i, cm =>
      if cm.typing.aborted then
        let r := finishTyping now (rushTyping cm)
        (r.1, Ev.sleepEv 300 :: r.2)
      else
        let cm1 := { cm with typing := { cm.typing with index := i } }
        let r := coLoopRush cd now k rest (i + 1) cm1
        (r.1, Ev.typeCharEv c :: Ev.sleepEv (charDelayOf cd cm1) :: r.2)

/-- The characters delivered to the per-character callback, in order. -/
def typedChars (evs : List Ev) : List Char :=
  evs.filterMap (fun e => match e with | Ev.typeCharEv c => some c | _ => none)

/-! ### Orchestrator state handling (part_008: main.js) -/

/-- The global typing-mode mutual-exclusion flag. -/
inductive TypingMode where
  | nothing
  | random
  | burst
  | message
deriving DecidableEq, Repr

/-- Transition payload fields read by `handleStateTransition` (other fields
only flow into display-sink calls). -/
structure TData where
  text : Option String
  startTyping : Bool
  messageContent : Option String
deriving DecidableEq, Repr

/-- A queued state transition (`pendingTransitions` entries).  The JavaScript
field named from is `src` here (a Lean keyword). -/
structure Transition where
  src : String
  dst : String
  dat : TData
deriving DecidableEq, Repr

/-- Orchestrator state touched by `handleStateTransition`.  The typing
controller and rig are driven through events (`tcClearQueueEv` etc.); their
geometric state is modelled separately with the controller itself. -/
structure App where
  pendingTransitions : List Transition
  isRushingTyping : Bool
  currentState : String
  currentTypingMode : TypingMode
  cm : CM
deriving DecidableEq, Repr

/-- `chatManager.abortTyping()` as called from the orchestrator: the
`onTypingEnd` callback wired in `initApp` clears the typing mode and sends
the arms back to rest. -/
def appAbortTyping (a : App) : App × List Ev :=
  let r := abortTyping a.cm
  if Ev.typingEndEv ∈ r.2 then
    ({ a with cm := r.1, currentTypingMode := TypingMode.nothing },
      r.2 ++ [Ev.tcReturnToRestEv])
  else ({ a with cm := r.1 }, r.2)

/-- JavaScript truthiness of `data.messageContent`. -/
def truthy : Option String → Bool
  | some s => !(s = "")
  | none => false

/-- The leaving-state section of `handleStateTransition`: overlay clears,
bubble/animation stops, and the send_message cleanup (abort, clear queue,
flush pending transitions). -/
def leaveEffects (a : App) (src dst : String) : App × List Ev :=
  let evA := if src = "editing" then
      Ev.randomTypingStopEv ::
        (if dst ≠ "read_file" ∧ dst ≠ "terminal" then [Ev.overlayClearEv] else [])
    else []
  let evB := if src = "read_file" then
      Ev.readStopEv ::
        (if dst ≠ "editing" ∧ dst ≠ "terminal" then [Ev.overlayClearEv] else [])
    else []
  let evC := if src = "terminal" then
      (if dst ≠ "editing" ∧ dst ≠ "read_file" then [Ev.overlayClearEv] else [])
    else []
  let evD := if src = "thinking" then [Ev.bubbleHideEv, Ev.thinkStopEv] else []
  if src = "send_message" then
    let r := appAbortTyping a
    ({ r.1 with currentTypingMode := TypingMode.nothing,
                pendingTransitions := [], isRushingTyping := false },
      evA ++ evB ++ evC ++ evD ++ r.2 ++ [Ev.tcClearQueueEv])
  else (a, evA ++ evB ++ evC ++ evD)

/-- The entering-state section of `handleStateTransition`: thought bubble,
send_message typing (a live message starts the `typeMessage` coroutine),
overlay shows, choreography launches, session end detection. -/
def enterEffects (a : App) (dst : String) (d : TData) (grace initialLoad : Bool)
    (now : Nat) : App × List Ev × Option CoState :=
  let evs9 :=
    if dst = "thinking" ∧ ¬grace ∧ truthy d.text then [Ev.bubbleShowEv, Ev.thinkStartEv]
    else []
  let p10 : App × List Ev × Option CoState :=
    if dst = "send_message" then
      if d.startTyping ∧ truthy d.messageContent then
        if initialLoad ∨ grace then
          ({ a with cm := addWendyMessage now ((d.messageContent).getD "") a.cm },
            evs9, none)
        else
          let t := typeMessageStart d.messageContent 150 a.cm
          ({ a with cm := t.1 }, evs9 ++ t.2.1, t.2.2)
      else (a, evs9, none)
    else (a, evs9, none)
  let evs11 :=
    if dst = "editing" then
      p10.2.1 ++ [Ev.overlayShowEv "diff"] ++ (if ¬grace then [Ev.choreoMouseTypeEv] else [])
    else p10.2.1
  let evs12 :=
    if dst = "read_file" then
      evs11 ++ [Ev.overlayShowEv "file"] ++
        (if ¬grace then [Ev.choreoMouseEv] else []) ++ [Ev.readStartEv]
    else evs11
  let evs13 :=
    if dst = "terminal" then
      evs12 ++ [Ev.overlayShowEv "terminal"] ++ (if ¬grace then [Ev.choreoBurstEv] else [])
    else evs12
  if dst = "done" then
    ({ p10.1 with cm := { p10.1.cm with lastProcessedSession := (p10.1.cm.sessionCount : Int) } },
      evs13 ++ [Ev.sessionEndEv], p10.2.2)
  else (p10.1, evs13, p10.2.2)

/-- `handleStateTransition(e)` from part_008.  `grace` is the
`isInInitialLoadPeriod()` clock test and `initialLoad` is
`chatManager.isInitialLoad()`, both passed in explicitly; `now` is the
millisecond clock.  Returns the new state, the events fired, and the
coroutine of a `typeMessage` call started by a send_message transition. -/
def handleStateTransition (a : App) (src dst : String) (d : TData)
    (grace initialLoad : Bool) (now : Nat) : App × List Ev × Option CoState :=
  -- to === 'waking': flush the queue and abort in-flight typing, then fall
  -- through so the transition applies immediately.
  if dst = "waking" then
    let a1 := { a with pendingTransitions := [], isRushingTyping := false }
    let p2 := if isTyping a1.cm then appAbortTyping a1 else (a1, [])
    let a2 := { p2.1 with currentTypingMode := TypingMode.nothing }
    let a3 := { a2 with currentState := dst }
    -- session lifecycle: entering waking bumps the session counter
    let a4 := { a3 with cm := { a3.cm with sessionCount := a3.cm.sessionCount + 1 } }
    let pL := leaveEffects a4 src dst
    let pE := enterEffects pL.1 dst d grace initialLoad now
    (pE.1, p2.2 ++ [Ev.tcClearQueueEv, Ev.camEv dst] ++ pL.2 ++ pE.2.1, pE.2.2)
  else if isTyping a.cm ∧ a.currentState = "send_message" then
    -- queue the transition and rush the active session instead of applying
    let a1 := { a with pendingTransitions := a.pendingTransitions ++ [⟨src, dst, d⟩] }
    let a2 := if !a1.isRushingTyping then
        { a1 with isRushingTyping := true, cm := rushTyping a1.cm }
      else a1
    (a2, [], none)
  else
    let a3 := { a with currentState := dst }
    let pL := leaveEffects a3 src dst
    let pE := enterEffects pL.1 dst d grace initialLoad now
    (pE.1, [Ev.camEv dst] ++ pL.2 ++ pE.2.1, pE.2.2)

/-! ### Event classifier (part_010: stream.js) -/

/-- The fields of a content block that `classifyEvent` reads.  Absent fields
(JavaScript `undefined`) are `none`. -/
structure Block where
  btype : String
  text : Option String
  name : Option String
  input : Option (Option String)  -- block.input, of which only .command is read
  id : Option String
  content : Option String
  is_error : Option Bool
  tool_use_id : Option String
deriving DecidableEq, Repr

/-- The values that can land in `result.content`. -/
inductive CVal where
  | str : String → CVal
  | inp : Option String → CVal   -- a tool_use input object (its command field)
deriving DecidableEq, Repr

/-- A raw stream event (`data.event`). -/
structure RawEvent where
  etype : String
  subtype : Option String
  is_error : Option Bool
  result : Option String
  message : Option (Option (List Block))  -- event.message, event.message.content
deriving DecidableEq, Repr

/-- The envelope delivered by the stream (`data`). -/
structure StreamData where
  event : Option RawEvent
deriving DecidableEq, Repr

/-- The classifier's output record. -/
structure Classified where
  ctype : String
  subtype : Option String
  content : Option CVal
  messageContent : Option String
  isError : Option Bool
  toolId : Option String
deriving DecidableEq, Repr

/-- The result record as initialized at the top of `classifyEvent`. -/
def Classified.base : Classified :=
  { ctype := "unknown", subtype := none, content := none, messageContent := none
    isError := none, toolId := none }

/-- Substring containment, modelling JavaScript `String.prototype.includes`. -/
def strContains (s sub : String) : Bool :=
  s.toList.tails.any (fun t => sub.toList.isPrefixOf t)

/-- The `for (const block of content)` loop of the assistant branch: the
first block of type text or tool_use returns; others are skipped.  The
`extract` parameter is `extractMessageFromCurl` (a regular-expression
routine; kept abstract, its output does not feed back into classification). -/
def assistantLoop (extract : String → Option String) : List Block → Option Classified
  | [] => none
  | b :: rest =>
      if b.btype = "text" then
        some { Classified.base with ctype := "thinking", content := b.text.map CVal.str }
      else if b.btype = "tool_use" then
        let r0 := { Classified.base with
          ctype := "tool_use", subtype := b.name, content := b.input.map CVal.inp
          toolId := b.id }
        if b.name = some "Bash" then
          let cmd := (b.input.bind id).getD ""
          if strContains cmd "check_messages" then
            some { r0 with subtype := some "check_messages" }
          else if strContains cmd "send_message" then
            some { r0 with subtype := some "send_message", messageContent := extract cmd }
          else some r0
        else some r0
      else assistantLoop extract rest

/-- The `for (const block of content)` loop of the user branch: the first
tool_result block returns. -/
def userLoop : List Block → Option Classified
  | [] => none
  | b :: rest =>
      if b.btype = "tool_result" then
        some { Classified.base with
          ctype := "tool_result", content := b.content.map CVal.str
          isError := b.is_error, toolId := b.tool_use_id }
      else userLoop rest

/-- `classifyEvent(data)` from stream.js.  `data.event || {}` makes a missing
event fall through every type test to the unknown result. -/
def classifyEvent (extract : String → Option String) (data : StreamData) : Classified :=
  match data.event with
  | none => Classified.base
  | some event =>
      if event.etype = "system" then
        { Classified.base with ctype := "system", subtype := event.subtype }
      else if event.etype = "result" then
        { Classified.base with
          ctype := "result"
          subtype := some (if event.is_error.getD false then "error" else "success")
          content := event.result.map CVal.str }
      else
        let fromAssistant : Option Classified :=
          if event.etype = "assistant" then
            assistantLoop extract (((event.message).bind id).getD [])
          else none
        match fromAssistant with
        | some r => r
        | none =>
            if event.etype = "user" then
              (userLoop (((event.message).bind id).getD [])).getD Classified.base
            else Classified.base

/-- `processPendingTransitions()` from part_008: copy and clear the queue,
reset the rush flag, and schedule each deferred transition in original order;
a thinking state holds 3000 ms before the next one, others 1000 ms. -/
def scheduleGo (delay : Nat) : List Transition → List (Nat × Transition)
  | [] => []
  | t :: rest =>
      (delay, t) :: scheduleGo (delay + (if t.dst = "thinking" then 3000 else 1000)) rest

/-- The queue-clearing part of `processPendingTransitions`; the returned list
pairs each deferred transition with its scheduled delay. -/
def processPendingTransitions (a : App) : App × List (Nat × Transition) :=
  if a.pendingTransitions = [] then (a, [])
  else
    ({ a with pendingTransitions := [], isRushingTyping := false },
      scheduleGo 0 a.pendingTransitions)

/-! ### Channel-map lemmas -/

theorem find_map_replace (l : List (String × Channel)) (cid : String) (ch : Channel) :
    (l.map (fun p => if p.1 = cid then (cid, ch) else p)).find?
        (fun p => decide (p.1 = cid))
      = (l.find? (fun p => decide (p.1 = cid))).map (fun _ => (cid, ch)) := by
  induction l with
  | nil => rfl
  | cons p rest ih =>
      by_cases h : p.1 = cid
      · simp [h, List.find?]
      · simp [List.find?, h, ih]

theorem find_append_single (l : List (String × Channel)) (cid : String) (ch : Channel)
    (h : l.find? (fun p => decide (p.1 = cid)) = none) :
    (l ++ [(cid, ch)]).find? (fun p => decide (p.1 = cid)) = some (cid, ch) := by
  induction l with
  | nil => simp [List.find?]
  | cons p rest ih =>
      rcases hp : (decide (p.1 = cid) : Bool) with _ | _
      · have hne : ¬ p.1 = cid := of_decide_eq_false hp
        rw [List.find?_cons_of_neg _ (by simpa using hne)] at h
        rw [List.cons_append, List.find?_cons_of_neg _ (by simpa using hne)]
        exact ih h
      · rw [List.find?_cons_of_pos _ (by simpa using hp)] at h
        simp at h

/-- Storing a channel back makes it the channel looked up afterwards. -/
theorem channelOf_setChan (cm : CM) (cid : String) (ch : Channel) :
    channelOf (setChan cm cid ch) cid = ch := by
  unfold channelOf setChan
  rcases hf : cm.channels.find? (fun p => decide (p.1 = cid)) with _ | p
  · simp only [hf, Option.isSome_none, Bool.false_eq_true, if_false]
    rw [find_append_single _ _ _ hf]
    rfl
  · simp only [hf, Option.isSome_some, if_true]
    rw [find_map_replace]
    rw [hf]
    rfl

/-- `getChannel` returns the channel that `channelOf` sees. -/
theorem getChannel_snd (cm : CM) (cid : String) :
    (getChannel cm cid).2 = channelOf cm cid := by
  unfold getChannel channelOf
  rcases h : (cm.channels.find? (fun p => decide (p.1 = cid))).map (·.2) with _ | ch
  · simp [h]
  · simp [h]

/-- `getChannel` leaves every field but `channels` alone, and leaves the
looked-up channel itself at its current value. -/
theorem channelOf_getChannel_fst (cm : CM) (cid : String) :
    channelOf (getChannel cm cid).1 cid = channelOf cm cid := by
  unfold getChannel
  rcases h : (cm.channels.find? (fun p => decide (p.1 = cid))).map (·.2) with _ | ch
  · have hnone : cm.channels.find? (fun p => decide (p.1 = cid)) = none := by
      rcases hh : cm.channels.find? (fun p => decide (p.1 = cid)) with _ | q
      · exact hh
      · rw [hh] at h; simp at h
    simp only [h]
    unfold channelOf
    rw [find_append_single _ _ _ hnone, hnone]
    rfl
  · simp [h]

theorem getChannel_typing (cm : CM) (cid : String) :
    (getChannel cm cid).1.typing = cm.typing ∧
    (getChannel cm cid).1.currentChannelId = cm.currentChannelId := by
  unfold getChannel
  rcases h : (cm.channels.find? (fun p => decide (p.1 = cid))).map (·.2) with _ | ch <;>
    simp [h]

theorem setChan_typing (cm : CM) (cid : String) (ch : Channel) :
    (setChan cm cid ch).typing = cm.typing ∧
    (setChan cm cid ch).currentChannelId = cm.currentChannelId := by
  unfold setChan
  constructor <;> rfl

/-- After `mapSet`, the key maps to the stored value. -/
theorem find_mapSet (l : List (MsgKey × StoredMsg)) (k : MsgKey) (v : StoredMsg) :
    (mapSet l k v).find? (fun p => decide (p.1 = k)) = some (k, v) := by
  induction l with
  | nil => simp [mapSet, List.find?]
  | cons p rest ih =>
      by_cases h : p.1 = k
      · simp [mapSet, h, List.find?]
      · simp [mapSet, h, List.find?, ih]

/-- `mapSet` on a fresh key appends. -/
theorem mapSet_fresh (l : List (MsgKey × StoredMsg)) (k : MsgKey) (v : StoredMsg)
    (h : l.find? (fun p => decide (p.1 = k)) = none) :
    mapSet l k v = l ++ [(k, v)] := by
  induction l with
  | nil => rfl
  | cons p rest ih =>
      rw [List.find?] at h
      rcases hp : (decide (p.1 = k) : Bool) with _ | _
      · simp only [hp] at h
        have hne : ¬ p.1 = k := of_decide_eq_false hp
        simp [mapSet, hne, ih h]
      · simp [hp] at h

/-- No trimming happens at or below the 50-entry cap. -/
theorem trimChannel_noop (ch : Channel) (h : ch.order.length ≤ 50) :
    trimChannel ch = ch := by
  unfold trimChannel
  rcases hl : ch.order.length with _ | n
  · rfl
  · rw [trimGo]
    have : ¬ ch.order.length > 50 := by omega
    simp [this]

/-! ### Claim C10: falsy text never starts a session -/

/-- Claim C10: calling `typeMessage` with absent (null/undefined) or empty
text while no session is active returns without creating a session, fires no
callback, hands over no coroutine, and leaves the whole ChatManager state
(channels included) unchanged. -/
theorem typeMessage_falsy_noop (cm : CM) (cd : Nat) (t : Option String)
    (hact : cm.typing.active = false) (ht : t = none ∨ t = some "") :
    typeMessageStart t cd cm = (cm, [], none) := by
  rcases ht with h | h <;> subst h <;> simp [typeMessageStart, hact]

/-- Witness for C10 at a concrete freshly-constructed ChatManager. -/
def cmSample : CM :=
  { channels := [], currentChannelId := none, typing := Typing.cleared
    sessionCount := 0, lastProcessedSession := -1, pendingMessage := none }

theorem typeMessage_falsy_noop_witness :
    cmSample.typing.active = false ∧
    typeMessageStart (some "") 150 cmSample = (cmSample, [], none) :=
  ⟨rfl, typeMessage_falsy_noop cmSample 150 (some "") rfl (Or.inr rfl)⟩

/-! ### Claim C9: synthesized keys and deduplication -/

/-- Claim C9: a message lacking a `message_id` is keyed by the synthesized
author-timestamp-content-slice string; a second message agreeing on author,
timestamp and the first 20 characters of content therefore collides, is
treated as a duplicate, and only the first one's record is stored. -/
theorem receiveMessages_synth_dedup (cm : CM) (cid : String) (m1 m2 : RawMsg)
    (il : Bool) (c1 c2 : String)
    (h1 : m1.message_id = none) (h2 : m2.message_id = none)
    (ha : m2.author = m1.author) (ht : m2.timestamp = m1.timestamp)
    (hc1 : m1.content = some c1) (hc2 : m2.content = some c2)
    (hpre : c2.take 20 = c1.take 20)
    (hfresh : chanHas (channelOf cm cid) (synthKey m1) = false)
    (hsmall : (channelOf cm cid).order.length ≤ 48) :
    keyOf m1 = synthKey m1 ∧ keyOf m2 = synthKey m1 ∧
    chanGet (channelOf (receiveMessages cm cid (some [m1, m2]) il) cid) (synthKey m1)
      = some ⟨synthKey m1, m1.author, m1.content, (m1.timestamp : ℚ)⟩ ∧
    (channelOf (receiveMessages cm cid (some [m1, m2]) il) cid).messages.countP
      (fun p => decide (p.1 = synthKey m1)) = 1 := by
  have hkey2 : synthKey m2 = synthKey m1 := by
    unfold synthKey
    rw [ha, ht]
    simp [sliceContent, hc1, hc2, hpre]
  have hk1 : keyOf m1 = synthKey m1 := by unfold keyOf; rw [h1]
  have hk2 : keyOf m2 = synthKey m1 := by unfold keyOf; rw [h2]; exact hkey2
  refine ⟨hk1, hk2, ?_⟩
  -- unfold the call down to the loop on the channel that getChannel returns
  have hch : (getChannel cm cid).2 = channelOf cm cid := getChannel_snd cm cid
  set ch := channelOf cm cid with hchdef
  have hfind : ch.messages.find? (fun p => decide (p.1 = synthKey m1)) = none := by
    unfold chanHas at hfresh
    rcases hh : ch.messages.find? (fun p => decide (p.1 = synthKey m1)) with _ | q
    · exact hh
    · rw [hh] at hfresh; simp at hfresh
  -- first message: fresh, so it is stored and pushed
  have hloop : receiveLoop ch [m1, m2] =
      { messages := ch.messages ++ [(synthKey m1,
          ⟨synthKey m1, m1.author, m1.content, (m1.timestamp : ℚ)⟩)]
        order := ch.order ++ [synthKey m1] } := by
    rw [receiveLoop]
    have hhas1 : chanHas ch (keyOf m1) = false := by rw [hk1]; exact hfresh
    rw [if_neg (by simp [hhas1])]
    rw [hk1, mapSet_fresh _ _ _ hfind]
    rw [receiveLoop]
    have hhas2 : chanHas
        { messages := ch.messages ++ [(synthKey m1,
            ⟨synthKey m1, m1.author, m1.content, (m1.timestamp : ℚ)⟩)]
          order := ch.order ++ [synthKey m1] } (keyOf m2) = true := by
      unfold chanHas
      rw [hk2]
      simp only []
      rw [List.find?_append, hfind]
      simp [List.find?]
    rw [if_pos (by simp [hhas2])]
    rfl
  -- no trimming at 49 entries or fewer
  have htrim : trimChannel (receiveLoop ch [m1, m2]) = receiveLoop ch [m1, m2] := by
    apply trimChannel_noop
    rw [hloop]
    simp only [List.length_append, List.length_cons, List.length_nil]
    omega
  have hrecv : receiveMessages cm cid (some [m1, m2]) il
      = setChan (getChannel cm cid).1 cid (receiveLoop ch [m1, m2]) := by
    show setChan (getChannel cm cid).1 cid
        (trimChannel (receiveLoop (getChannel cm cid).2 [m1, m2])) = _
    rw [hch, htrim]
  rw [hrecv, channelOf_setChan, hloop]
  constructor
  · unfold chanGet
    rw [List.find?_append, hfind]
    simp [List.find?]
  · rw [List.countP_append]
    have hzero : ch.messages.countP (fun p => decide (p.1 = synthKey m1)) = 0 := by
      rw [List.countP_eq_zero]
      intro a ha2
      exact List.find?_eq_none.mp hfind a ha2
    rw [hzero]
    simp

/-- Concrete inputs for the C9 witness: two different messages without ids
agreeing on author, timestamp and the first 20 characters of content. -/
def rmA : RawMsg := ⟨none, "alice", some "aaaaaaaaaaaaaaaaaaaaXX", 5⟩

def rmB : RawMsg := ⟨none, "alice", some "aaaaaaaaaaaaaaaaaaaaYY", 5⟩

set_option maxRecDepth 4000 in
theorem receiveMessages_synth_dedup_witness :
    chanHas (channelOf cmSample "chan") (synthKey rmA) = false ∧
    (channelOf cmSample "chan").order.length ≤ 48 ∧
    (keyOf rmA = synthKey rmA ∧ keyOf rmB = synthKey rmA ∧
      chanGet (channelOf (receiveMessages cmSample "chan" (some [rmA, rmB]) false) "chan")
          (synthKey rmA)
        = some ⟨synthKey rmA, rmA.author, rmA.content, (rmA.timestamp : ℚ)⟩ ∧
      (channelOf (receiveMessages cmSample "chan" (some [rmA, rmB]) false) "chan").messages.countP
        (fun p => decide (p.1 = synthKey rmA)) = 1) :=
  ⟨by decide, by decide,
    receiveMessages_synth_dedup cmSample "chan" rmA rmB false
      "aaaaaaaaaaaaaaaaaaaaXX" "aaaaaaaaaaaaaaaaaaaaYY"
      rfl rfl rfl rfl rfl rfl (by decide) (by decide) (by decide)⟩

/-! ### Claim C8: classifier block priority -/

/-- The first block the assistant branch of `classifyEvent` can match. -/
def firstRelevant (blocks : List Block) : Option Block :=
  blocks.find? (fun b => decide (b.btype = "text" ∨ b.btype = "tool_use"))

theorem assistantLoop_ctype (extract : String → Option String) (blocks : List Block) :
    (∀ b, firstRelevant blocks = some b →
      ∃ r, assistantLoop extract blocks = some r ∧
        r.ctype = (if b.btype = "text" then "thinking" else "tool_use")) ∧
    (firstRelevant blocks = none → assistantLoop extract blocks = none) := by
  induction blocks with
  | nil => exact ⟨fun b h => by simp [firstRelevant] at h, fun _ => rfl⟩
  | cons b rest ih =>
      by_cases htext : b.btype = "text"
      · refine ⟨fun b0 h0 => ?_, fun h0 => ?_⟩
        · have : b0 = b := by
            simp [firstRelevant, List.find?_cons_of_pos, htext] at h0
            exact h0.symm
          subst this
          refine ⟨{ Classified.base with ctype := "thinking", content := b0.text.map CVal.str },
            ?_, by simp [htext]⟩
          rw [assistantLoop, if_pos htext]
        · simp [firstRelevant, List.find?_cons_of_pos, htext] at h0
      · by_cases htool : b.btype = "tool_use"
        · refine ⟨fun b0 h0 => ?_, fun h0 => ?_⟩
          · have : b0 = b := by
              simp [firstRelevant, List.find?_cons_of_pos, htool] at h0
              exact h0.symm
            subst this
            unfold assistantLoop
            rw [if_neg htext, if_pos htool, if_neg (by simp [htext] : ¬ b0.btype = "text")]
            by_cases hname : b0.name = some "Bash"
            · rw [if_pos hname]
              by_cases hchk : strContains ((b0.input.bind id).getD "") "check_messages" = true
              · exact ⟨_, by rw [if_pos hchk], rfl⟩
              · rw [if_neg hchk]
                by_cases hsend : strContains ((b0.input.bind id).getD "") "send_message" = true
                · exact ⟨_, by rw [if_pos hsend], rfl⟩
                · exact ⟨_, by rw [if_neg hsend], rfl⟩
            · exact ⟨_, by rw [if_neg hname], rfl⟩
          · simp [firstRelevant, List.find?_cons_of_pos, htool] at h0
        · have hskip : firstRelevant (b :: rest) = firstRelevant rest := by
            unfold firstRelevant
            exact List.find?_cons_of_neg _ (by simp [htext, htool])
          have hloop : assistantLoop extract (b :: rest) = assistantLoop extract rest := by
            rw [assistantLoop, if_neg htext, if_neg htool]
          exact ⟨fun b0 h0 => hloop ▸ ih.1 b0 (hskip ▸ h0),
            fun h0 => hloop ▸ ih.2 (hskip ▸ h0)⟩

/-- Claim C8 (amended): for an assistant record, the classification is
determined by the first block whose type is text or tool_use, in content
order; a text block wins exactly when it precedes every tool_use block, not
whenever one is present. -/
theorem classify_first_block_wins (extract : String → Option String) (d : StreamData)
    (ev : RawEvent) (blocks : List Block)
    (hev : d.event = some ev) (hty : ev.etype = "assistant")
    (hmsg : ev.message = some (some blocks)) :
    (classifyEvent extract d).ctype =
      (match firstRelevant blocks with
        | some b => if b.btype = "text" then "thinking" else "tool_use"
        | none => "unknown") := by
  unfold classifyEvent
  simp only [hev]
  rw [if_neg (by rw [hty]; decide), if_neg (by rw [hty]; decide)]
  rw [if_pos hty, hmsg]
  have hred : (((some (some blocks)).bind id).getD []) = blocks := rfl
  rcases hfr : firstRelevant blocks with _ | b
  · have hn := (assistantLoop_ctype extract blocks).2 hfr
    rw [hred, hn]
    show (if ev.etype = "user" then (userLoop blocks).getD Classified.base
        else Classified.base).ctype = "unknown"
    rw [if_neg (by rw [hty]; decide)]
    rfl
  · obtain ⟨r, hr, hc⟩ := (assistantLoop_ctype extract blocks).1 b hfr
    rw [hred, hr]
    exact hc

/-- Concrete content blocks for the C8 refutation: a tool_use block followed
by a text block. -/
def blkTool : Block :=
  ⟨"tool_use", none, some "Read", some none, some "toolu_1", none, none, none⟩

def blkText : Block := ⟨"text", some "hi", none, none, none, none, none, none⟩

def evToolText : RawEvent := ⟨"assistant", none, none, none, some (some [blkTool, blkText])⟩

def dataToolText : StreamData := ⟨some evToolText⟩

def evTextTool : RawEvent := ⟨"assistant", none, none, none, some (some [blkText, blkTool])⟩

def dataTextTool : StreamData := ⟨some evTextTool⟩

/-- Counterexample to claim C8 as stated: an assistant record whose content
holds a tool_use block and then a text block is classified from the tool_use
block, so the text block does not win whenever present. -/
theorem classify_text_priority_refuted :
    (blkText ∈ [blkTool, blkText] ∧ blkText.btype = "text") ∧
    (classifyEvent (fun _ => none) dataToolText).ctype = "tool_use" ∧
    ¬ (classifyEvent (fun _ => none) dataToolText).ctype = "thinking" := by
  refine ⟨⟨by decide, rfl⟩, ?_, ?_⟩ <;> decide

theorem classify_first_block_wins_witness :
    dataTextTool.event = some evTextTool ∧ evTextTool.etype = "assistant" ∧
    evTextTool.message = some (some [blkText, blkTool]) ∧
    (classifyEvent (fun _ => none) dataTextTool).ctype =
      (match firstRelevant [blkText, blkTool] with
        | some b => if b.btype = "text" then "thinking" else "tool_use"
        | none => "unknown") :=
  ⟨rfl, rfl, rfl,
    classify_first_block_wins (fun _ => none) dataTextTool evTextTool [blkText, blkTool]
      rfl rfl rfl⟩

/-! ### Claim C4: abort commits nothing -/

/-- With no active session, the rest of a `typeMessage` coroutine can keep
running (its abort check reads the fresh, un-aborted record, so the loop
walks every remaining character) but neither touches any channel log nor
fires the end callback: `finishTyping` refuses inactive sessions. -/
theorem coLoop_inactive (cd now : Nat) (rem : List Char) (i : Nat) (cm : CM)
    (h : cm.typing.active = false) :
    (coLoop cd now rem i cm).1.channels = cm.channels ∧
    (coLoop cd now rem i cm).2.count Ev.typingEndEv = 0 := by
  induction rem generalizing i cm with
  | nil =>
      simp [coLoop, finishTyping, h]
  | cons c rest ih =>
      rw [coLoop]
      by_cases hab : cm.typing.aborted = true
      · rw [if_pos hab]
        simp [finishTyping, h]
      · rw [if_neg hab]
        have h1 : ({ cm with typing := { cm.typing with index := i } } : CM).typing.active
            = false := h
        obtain ⟨hch, hcnt⟩ := ih (i + 1) { cm with typing := { cm.typing with index := i } } h1
        refine ⟨hch, ?_⟩
        simp [List.count_cons, hcnt]

/-- Claim C4: aborting an active session (after any number of characters)
leaves every channel log unchanged, deactivates the session, fires the end
callback exactly once, and the rest of the orphaned `typeMessage` coroutine
commits nothing and fires no further end callback. -/
theorem abortTyping_commits_nothing (cm : CM) (h : cm.typing.active = true) :
    (abortTyping cm).1.channels = cm.channels ∧
    (abortTyping cm).1.typing.active = false ∧
    (abortTyping cm).2.count Ev.typingEndEv = 1 ∧
    ∀ cd now rem i,
      (coLoop cd now rem i (abortTyping cm).1).1.channels = cm.channels ∧
      (coLoop cd now rem i (abortTyping cm).1).2.count Ev.typingEndEv = 0 := by
  have habort : abortTyping cm
      = ({ cm with typing := Typing.cleared },
          Ev.typingEndEv :: (if cm.typing.hasResolve then [Ev.resolveEv] else [])) := by
    unfold abortTyping
    rw [if_pos h]
  refine ⟨by rw [habort], by rw [habort]; rfl, ?_, ?_⟩
  · rw [habort]
    by_cases hres : cm.typing.hasResolve = true <;> simp [hres, List.count_cons]
  · intro cd now rem i
    have hinact : ((abortTyping cm).1).typing.active = false := by rw [habort]; rfl
    have := coLoop_inactive cd now rem i (abortTyping cm).1 hinact
    rw [habort] at this ⊢
    exact this

/-- Witness for C4: a concrete manager mid-session. -/
def cmTypingSample : CM :=
  { channels := [("chan", ⟨[], []⟩)], currentChannelId := some "chan"
    typing := { active := true, text := "hello".data, index := 2, aborted := false
                rushed := false, hasResolve := true }
    sessionCount := 1, lastProcessedSession := -1, pendingMessage := none }

theorem abortTyping_commits_nothing_witness :
    cmTypingSample.typing.active = true ∧
    ((abortTyping cmTypingSample).1.channels = cmTypingSample.channels ∧
      (abortTyping cmTypingSample).1.typing.active = false ∧
      (abortTyping cmTypingSample).2.count Ev.typingEndEv = 1 ∧
      ∀ cd now rem i,
        (coLoop cd now rem i (abortTyping cmTypingSample).1).1.channels
          = cmTypingSample.channels ∧
        (coLoop cd now rem i (abortTyping cmTypingSample).1).2.count Ev.typingEndEv = 0) :=
  ⟨rfl, abortTyping_commits_nothing cmTypingSample rfl⟩

/-! ### Claim C3: rush shortens, never truncates -/

/-- The millisecond-stamped key under which `finishTyping` commits. -/
def wendyKey (now : Nat) : MsgKey := MsgKey.str ("wendy-" ++ toString now)

/-- An undisturbed run of the rest of `typeMessage` over an active,
un-aborted session types every remaining character in order and commits the
full session text to the current channel. -/
theorem coLoop_active_run (cd now : Nat) (rem : List Char) (i : Nat) (cm : CM)
    (cid : String) (hact : cm.typing.active = true) (hab : cm.typing.aborted = false)
    (hch : cm.currentChannelId = some cid) :
    typedChars (coLoop cd now rem i cm).2 = rem ∧
    chanGet (channelOf (coLoop cd now rem i cm).1 cid) (wendyKey now)
      = some ⟨wendyKey now, "Wendy", some (String.mk cm.typing.text), (now : ℚ) / 1000⟩ := by
  induction rem generalizing i cm with
  | nil =>
      have hfin : finishTyping now cm
          = (setChan (getChannel { cm with typing := Typing.cleared } cid).1 cid
              { messages := mapSet (getChannel { cm with typing := Typing.cleared } cid).2.messages
                  (wendyKey now)
                  ⟨wendyKey now, "Wendy", some (String.mk cm.typing.text), (now : ℚ) / 1000⟩
                order := (getChannel { cm with typing := Typing.cleared } cid).2.order
                  ++ [wendyKey now] },
              Ev.typingEndEv :: (if cm.typing.hasResolve then [Ev.resolveEv] else [])) := by
        unfold finishTyping
        rw [if_pos hact]
        show (match cm.currentChannelId with
          | some cid => _
          | none => _) = _
        rw [hch]
        rfl
      constructor
      · rw [coLoop, hfin]
        by_cases hres : cm.typing.hasResolve = true <;> simp [hres, typedChars]
      · rw [coLoop, hfin]
        show chanGet (channelOf (setChan _ cid _) cid) (wendyKey now) = _
        rw [channelOf_setChan]
        unfold chanGet
        rw [find_mapSet]
        rfl
  | cons c rest ih =>
      rw [coLoop]
      rw [if_neg (by rw [hab]; simp)]
      have h1 := ih (i + 1) { cm with typing := { cm.typing with index := i } } hact hab hch
      refine ⟨?_, h1.2⟩
      simp only [typedChars, List.filterMap] at h1 ⊢
      simp [typedChars] at h1 ⊢
      exact h1.1

/-- Like `coLoop_active_run`, but with `rushTyping` interleaved after `k`
iterations: the rush flag only changes the sleep durations, so the typed
characters and the committed text are unchanged. -/
theorem coLoopRush_run (cd now k : Nat) (rem : List Char) (i : Nat) (cm : CM)
    (cid : String) (hact : cm.typing.active = true) (hab : cm.typing.aborted = false)
    (hch : cm.currentChannelId = some cid) :
    typedChars (coLoopRush cd now k rem i cm).2 = rem ∧
    chanGet (channelOf (coLoopRush cd now k rem i cm).1 cid) (wendyKey now)
      = some ⟨wendyKey now, "Wendy", some (String.mk cm.typing.text), (now : ℚ) / 1000⟩ := by
  induction k generalizing rem i cm with
  | zero =>
      rw [coLoopRush]
      have hrush : rushTyping cm = { cm with typing := { cm.typing with rushed := true } } := by
        unfold rushTyping
        rw [if_pos hact]
      rw [hrush]
      exact coLoop_active_run cd now rem i _ cid hact hab hch
  | succ k ih =>
      match rem with
      | [] =>
          rw [coLoopRush]
          have hrush : rushTyping cm
              = { cm with typing := { cm.typing with rushed := true } } := by
            unfold rushTyping
            rw [if_pos hact]
          rw [hrush]
          exact coLoop_active_run cd now [] i _ cid hact hab hch
      | c :: rest =>
          rw [coLoopRush]
          rw [if_neg (by rw [hab]; simp)]
          have h1 := ih rest (i + 1) { cm with typing := { cm.typing with index := i } }
            hact hab hch
          refine ⟨?_, h1.2⟩
          simp [typedChars] at h1 ⊢
          exact h1.1

/-- Claim C3 (spec-modelled rush): rushing an in-progress session after any
number of characters still delivers every character of the text to the
per-character callback in order, and still commits a message whose content
equals the full text to the current channel log. -/
theorem rush_never_truncates (cm : CM) (t : String) (cid : String) (cd k now : Nat)
    (hact : cm.typing.active = false) (ht : ¬ t = "")
    (hch : cm.currentChannelId = some cid) :
    (typeMessageStart (some t) cd cm).2.2 = some ⟨t.data, cd⟩ ∧
    typedChars (coLoopRush cd now k t.data 0 (typeMessageStart (some t) cd cm).1).2
      = t.data ∧
    chanGet (channelOf (coLoopRush cd now k t.data 0
          (typeMessageStart (some t) cd cm).1).1 cid) (wendyKey now)
      = some ⟨wendyKey now, "Wendy", some t, (now : ℚ) / 1000⟩ := by
  have hstart : typeMessageStart (some t) cd cm
      = ({ cm with typing :=
            { active := true, text := t.data, index := 0, aborted := false
              rushed := false, hasResolve := true } },
          [Ev.typingStartEv t.data],
          some ⟨t.data, cd⟩) := by
    unfold typeMessageStart
    rw [if_neg (by rw [hact]; simp)]
    simp only [if_neg ht]
  rw [hstart]
  have := coLoopRush_run cd now k t.data 0
    { cm with typing :=
        { active := true, text := t.data, index := 0, aborted := false
          rushed := false, hasResolve := true } } cid rfl rfl
    (show ({ cm with typing :=
        { active := true, text := t.data, index := 0, aborted := false
          rushed := false, hasResolve := true } } : CM).currentChannelId = some cid from hch)
  exact ⟨rfl, this.1, this.2⟩

/-- A manager with a current channel and no active session, for the C3
witness. -/
def cmChanSample : CM :=
  { channels := [], currentChannelId := some "chan", typing := Typing.cleared
    sessionCount := 0, lastProcessedSession := -1, pendingMessage := none }

theorem rush_never_truncates_witness :
    cmChanSample.typing.active = false ∧ ¬ ("hello" : String) = "" ∧
    cmChanSample.currentChannelId = some "chan" ∧
    ((typeMessageStart (some "hello") 150 cmChanSample).2.2
        = some ⟨"hello".data, 150⟩ ∧
      typedChars (coLoopRush 150 1234 2 "hello".data 0
          (typeMessageStart (some "hello") 150 cmChanSample).1).2 = "hello".data ∧
      chanGet (channelOf (coLoopRush 150 1234 2 "hello".data 0
            (typeMessageStart (some "hello") 150 cmChanSample).1).1 "chan") (wendyKey 1234)
        = some ⟨wendyKey 1234, "Wendy", some "hello", (1234 : ℚ) / 1000⟩) :=
  ⟨rfl, by decide, rfl,
    rush_never_truncates cmChanSample "hello" "chan" 150 2 1234 rfl (by decide) rfl⟩

/-! ### Claim C5: a waking transition overrides in-flight typing -/

/-- `leaveEffects` never touches channel logs, and an inactive session stays
inactive through it (the second `abortTyping` is a no-op); an empty
pending-transition list stays empty. -/
theorem leaveEffects_preserves (a : App) (src dst : String)
    (hin : a.cm.typing.active = false) :
    (leaveEffects a src dst).1.cm.channels = a.cm.channels ∧
    (leaveEffects a src dst).1.cm.typing.active = false ∧
    (leaveEffects a src dst).1.currentState = a.currentState ∧
    (a.pendingTransitions = [] → (leaveEffects a src dst).1.pendingTransitions = []) := by
  have habort : abortTyping a.cm = (a.cm, []) := by
    unfold abortTyping
    rw [if_neg (by rw [hin]; simp)]
  unfold leaveEffects
  by_cases hsm : src = "send_message"
  · rw [if_pos hsm]
    unfold appAbortTyping
    rw [habort]
    simp [hin]
  · rw [if_neg hsm]
    exact ⟨rfl, hin, rfl, fun h => h⟩

/-- `enterEffects` on a waking transition matches none of the entering
branches: the state is untouched, no events fire, no coroutine starts. -/
theorem enterEffects_waking (a : App) (d : TData) (grace il : Bool) (now : Nat) :
    enterEffects a "waking" d grace il now = (a, [], none) := by
  have hth : ¬ (("waking" : String) = "thinking" ∧ ¬grace = true ∧ truthy d.text = true) :=
    fun h => absurd h.1 (by decide)
  have e1 : (("waking" : String) = "thinking" ∧ ¬grace = true ∧ truthy d.text = true) = False :=
    eq_false hth
  have e2 : (("waking" : String) = "send_message") = False := eq_false (by decide)
  have e3 : (("waking" : String) = "editing") = False := eq_false (by decide)
  have e4 : (("waking" : String) = "read_file") = False := eq_false (by decide)
  have e5 : (("waking" : String) = "terminal") = False := eq_false (by decide)
  have e6 : (("waking" : String) = "done") = False := eq_false (by decide)
  unfold enterEffects
  simp only [e1, e2, e3, e4, e5, e6, if_false]

/-- The orchestrator state reached on a waking transition after the queue
flush, abort, mode reset, state assignment and session-count bump, right
before the leaving/entering sections run. -/
def wakingMid (a : App) : App :=
  { pendingTransitions := [], isRushingTyping := false,
    currentState := "waking", currentTypingMode := TypingMode.nothing,
    cm := { a.cm with typing := Typing.cleared, sessionCount := a.cm.sessionCount + 1 } }

/-- Claim C5: a transition to waking while a session is actively typing is
applied immediately (the new current state is waking and no transition is
deferred), empties the pending-transition list, aborts the in-flight typing,
starts no typing coroutine itself, leaves every channel log unchanged, and
the orphaned remainder of the aborted `typeMessage` coroutine can never
commit the prior text (channel logs stay unchanged through it). -/
theorem waking_overrides (a : App) (src1 : String) (d : TData) (grace il : Bool)
    (now : Nat) (h : a.cm.typing.active = true) :
    (handleStateTransition a src1 "waking" d grace il now).1.pendingTransitions = [] ∧
    (handleStateTransition a src1 "waking" d grace il now).1.currentState = "waking" ∧
    (handleStateTransition a src1 "waking" d grace il now).1.cm.typing.active = false ∧
    (handleStateTransition a src1 "waking" d grace il now).2.2 = none ∧
    (handleStateTransition a src1 "waking" d grace il now).1.cm.channels = a.cm.channels ∧
    ∀ cd now2 rem i,
      (coLoop cd now2 rem i
          (handleStateTransition a src1 "waking" d grace il now).1.cm).1.channels
        = a.cm.channels := by
  have habort : abortTyping a.cm
      = ({ a.cm with typing := Typing.cleared },
          Ev.typingEndEv :: (if a.cm.typing.hasResolve then [Ev.resolveEv] else [])) := by
    unfold abortTyping
    rw [if_pos h]
  have hmain : handleStateTransition a src1 "waking" d grace il now
      = ((leaveEffects (wakingMid a) src1 "waking").1,
          ((Ev.typingEndEv :: (if a.cm.typing.hasResolve then [Ev.resolveEv] else []))
              ++ [Ev.tcReturnToRestEv]) ++ [Ev.tcClearQueueEv, Ev.camEv "waking"]
            ++ (leaveEffects (wakingMid a) src1 "waking").2 ++ [],
          none) := by
    unfold handleStateTransition
    rw [if_pos (rfl : ("waking" : String) = "waking")]
    have hIs : isTyping ({ a with pendingTransitions := [], isRushingTyping := false }
        : App).cm = true := h
    simp only [hIs, if_true]
    unfold appAbortTyping
    simp only [habort]
    simp only [List.mem_cons, true_or, if_true]
    rw [enterEffects_waking]
    rfl
  obtain ⟨hc1, hc2, hc3, hc4⟩ := leaveEffects_preserves (wakingMid a) src1 "waking" rfl
  rw [hmain]
  refine ⟨hc4 rfl, ?_, hc2, rfl, ?_, ?_⟩
  · rw [hc3]
    rfl
  · rw [hc1]
    rfl
  · intro cd now2 rem i
    have hcl := (coLoop_inactive cd now2 rem i _ hc2).1
    rw [hcl, hc1]
    rfl

/-- Concrete orchestrator state for the C5 witness: mid-typing in
send_message with a non-empty pending queue. -/
def tdSample : TData := ⟨none, false, none⟩

def appSample : App :=
  { pendingTransitions := [⟨"thinking", "editing", tdSample⟩], isRushingTyping := true
    currentState := "send_message", currentTypingMode := TypingMode.message
    cm := cmTypingSample }

theorem waking_overrides_witness :
    appSample.cm.typing.active = true ∧
    ((handleStateTransition appSample "send_message" "waking" tdSample false false 99).1.pendingTransitions = [] ∧
      (handleStateTransition appSample "send_message" "waking" tdSample false false 99).1.currentState = "waking" ∧
      (handleStateTransition appSample "send_message" "waking" tdSample false false 99).1.cm.typing.active = false ∧
      (handleStateTransition appSample "send_message" "waking" tdSample false false 99).2.2 = none ∧
      (handleStateTransition appSample "send_message" "waking" tdSample false false 99).1.cm.channels
        = appSample.cm.channels ∧
      ∀ cd now2 rem i,
        (coLoop cd now2 rem i
            (handleStateTransition appSample "send_message" "waking" tdSample false false 99).1.cm).1.channels
          = appSample.cm.channels) :=
  ⟨rfl, waking_overrides appSample "send_message" tdSample false false 99 rfl⟩

/-! ### TypingController (typing-controller.js, in src under mock-data.js)

JavaScript numbers are modelled as exact reals, so the vector geometry below
is noncomputable; the discrete queue logic stays structural. -/

/-- A THREE.Vector3. -/
structure Vec3 where
  x : ℝ
  y : ℝ
  z : ℝ

/-- Componentwise difference (`subVectors`). -/
def vsub (a b : Vec3) : Vec3 := ⟨a.x - b.x, a.y - b.y, a.z - b.z⟩

/-- Componentwise sum. -/
def vadd (a b : Vec3) : Vec3 := ⟨a.x + b.x, a.y + b.y, a.z + b.z⟩

/-- Scalar multiple (`multiplyScalar`). -/
def smulV (c : ℝ) (v : Vec3) : Vec3 := ⟨c * v.x, c * v.y, c * v.z⟩

/-- `length()`. -/
noncomputable def normV (v : Vec3) : ℝ := Real.sqrt (v.x ^ 2 + v.y ^ 2 + v.z ^ 2)

/-- `distanceTo`. -/
noncomputable def distV (a b : Vec3) : ℝ := normV (vsub a b)

/-- `lerp(goal, alpha)`: move `alpha` of the way toward `goal`. -/
def lerpV (v goal : Vec3) (alpha : ℝ) : Vec3 := vadd v (smulV alpha (vsub goal v))

/-- Keypress phases hover, press, lift. -/
inductive Phase where
  | hover
  | press
  | lift
deriving DecidableEq, Repr

/-- A queued keypress: character, hand (by the key's world X sign), phase,
and the key's stored world Y. -/
structure Keypress where
  char : Char
  isLeftHand : Bool
  phase : Phase
  keyY : ℝ

/-- What `keyboard.getKeyPosition(char)` returns. -/
structure KeyInfo where
  position : Vec3
  isLeftHand : Bool

/-- The keyboard's character-to-key mapping. -/
def Keyboard : Type := Char → Option KeyInfo

/-- Height above a key while hovering. -/
def HOVER_HEIGHT : ℝ := 0.06

/-- Height above a key while pressed. -/
def PRESS_HEIGHT : ℝ := 0.01

/-- Arm travel speed in units per second. -/
def ARM_SPEED : ℝ := 4

/-- Distance threshold that triggers a phase change. -/
def KEYPRESS_THRESHOLD : ℝ := 0.015

/-- TypingController state: interpolated arm targets, goals, lock flags, the
pending keypress queue and the keypress being animated.  The rig (`wendy`)
and the IK joint rotations it receives are write-only outputs of `update`
and are not controller state. -/
structure TC where
  leftArmTarget : Vec3
  rightArmTarget : Vec3
  leftArmTargetGoal : Vec3
  rightArmTargetGoal : Vec3
  leftArmLocked : Bool
  rightArmLocked : Bool
  keypressQueue : List Keypress
  currentKeypress : Option Keypress

/-- `typeCharacter(char)`: ignore characters without a key (the `wendy.lookAt`
call is a rig visual), otherwise append a hover-phase keypress. -/
def typeCharacter (kb : Keyboard) (c : Char) (s : TC) : TC :=
  match kb c with
  | none => s
  | some ki =>
      { s with keypressQueue :=
          s.keypressQueue ++ [⟨c, ki.isLeftHand, Phase.hover, ki.position.y⟩] }

/-- `_updateArmPosition`: move toward the goal at most `maxMove`, snapping
onto it when close enough; distances at or below 0.001 are left alone. -/
noncomputable def updateArmPosition (target goal : Vec3) (maxMove : ℝ) : Vec3 :=
  let dist := distV target goal
  if dist > 0.001 then
    if dist ≤ maxMove then goal else lerpV target goal (maxMove / dist)
  else target

/-- The `while` loop of `_processKeypressQueue`: shift entries until one with
an existing key and an unlocked hand is found (entries failing either test
are dropped), returning the chosen keypress and the queue remainder. -/
def pickNext (kb : Keyboard) (leftLocked rightLocked : Bool) :
    List Keypress → Option (Keypress × KeyInfo) × List Keypress
  | [] => (none, [])
  | k :: rest =>
      match kb k.char with
      | none => pickNext kb leftLocked rightLocked rest
      | some ki =>
          if k.isLeftHand && leftLocked then pickNext kb leftLocked rightLocked rest
          else if !k.isLeftHand && rightLocked then pickNext kb leftLocked rightLocked rest
          else (some (k, ki), rest)

/-- `_processKeypressQueue`: when no keypress is active, pop until a playable
keypress installs itself (goal = key position raised to hover height), or the
queue is exhausted. -/
def processKeypressQueue (kb : Keyboard) (s : TC) : TC :=
  match s.currentKeypress with
  | some _ => s
  | none =>
      match pickNext kb s.leftArmLocked s.rightArmLocked s.keypressQueue with
      | (none, _) => { s with keypressQueue := [] }
      | (some (k, ki), rest) =>
          let hoverGoal : Vec3 := ⟨ki.position.x, ki.position.y + HOVER_HEIGHT, ki.position.z⟩
          if k.isLeftHand then
            { s with currentKeypress := some k, keypressQueue := rest
                     leftArmTargetGoal := hoverGoal }
          else
            { s with currentKeypress := some k, keypressQueue := rest
                     rightArmTargetGoal := hoverGoal }

/-- Overwrite the y coordinate of one hand's goal. -/
def setGoalY (s : TC) (isLeft : Bool) (y : ℝ) : TC :=
  if isLeft then { s with leftArmTargetGoal := { s.leftArmTargetGoal with y := y } }
  else { s with rightArmTargetGoal := { s.rightArmTargetGoal with y := y } }

/-- `_updateCurrentKeypress`: within the phase-change threshold, advance
hover to press, press to lift (firing `keyboard.pressKey` — a rig visual —
and the `onKeyPressed` callback, returned as the emitted character), and
complete on lift. -/
noncomputable def updateCurrentKeypress (s : TC) : TC × List Char :=
  match s.currentKeypress with
  | none => (s, [])
  | some k =>
      let armTarget := if k.isLeftHand then s.leftArmTarget else s.rightArmTarget
      let armGoal := if k.isLeftHand then s.leftArmTargetGoal else s.rightArmTargetGoal
      if distV armTarget armGoal < KEYPRESS_THRESHOLD then
        match k.phase with
        | Phase.hover =>
            ({ setGoalY s k.isLeftHand (k.keyY + PRESS_HEIGHT) with
                currentKeypress := some { k with phase := Phase.press } }, [])
        | Phase.press =>
            ({ setGoalY s k.isLeftHand (k.keyY + HOVER_HEIGHT) with
                currentKeypress := some { k with phase := Phase.lift } }, [k.char])
        | Phase.lift => ({ s with currentKeypress := none }, [])
      else (s, [])

/-- The two `_updateArmPosition` calls at the top of `update`. -/
noncomputable def moveArms (maxMove : ℝ) (s : TC) : TC :=
  { s with
    leftArmTarget := updateArmPosition s.leftArmTarget s.leftArmTargetGoal maxMove
    rightArmTarget := updateArmPosition s.rightArmTarget s.rightArmTargetGoal maxMove }

/-- `update(delta)`: interpolate both arms toward their goals, pop the queue,
advance the active keypress.  The trailing `solveTwoBoneIK` calls write joint
rotations to the rig and are not controller state. -/
noncomputable def update (kb : Keyboard) (delta : ℝ) (s : TC) : TC × List Char :=
  updateCurrentKeypress (processKeypressQueue kb (moveArms (ARM_SPEED * delta) s))

/-- `clearQueue()`. -/
def clearQueue (s : TC) : TC := { s with keypressQueue := [], currentKeypress := none }

/-- `isTyping()`. -/
def tcIsTyping (s : TC) : Bool := s.currentKeypress.isSome || !s.keypressQueue.isEmpty

/-- Iterate `update` a number of frames, concatenating the emitted keypress
callbacks. -/
noncomputable def run (kb : Keyboard) (delta : ℝ) : Nat → TC → TC × List Char
  | 0, s => (s, [])
  | n + 1, s =>
      let r := update kb delta s
      let r2 := run kb delta n r.1
      (r2.1, r.2 ++ r2.2)

/-! ### Claim C6: a locked hand's keystroke is dropped, not deferred -/

/-- Claim C6 (amended): when the keypress at the front of the queue needs a
locked hand, `update` behaves exactly as if that keypress were not in the
queue at all — it is shifted off and discarded without executing, not kept
pending for a later retry. -/
theorem locked_front_keystroke_dropped (kb : Keyboard) (d : ℝ) (s : TC) (k : Keypress)
    (rest : List Keypress) (ki : KeyInfo)
    (hq : s.keypressQueue = k :: rest) (hcur : s.currentKeypress = none)
    (hk : kb k.char = some ki)
    (hlock : ((k.isLeftHand && s.leftArmLocked) || (!k.isLeftHand && s.rightArmLocked)) = true) :
    update kb d s = update kb d { s with keypressQueue := rest } := by
  cases s with
  | mk lt rt lg rg ll rl q cur =>
      simp only at hq hcur hlock
      subst hq
      subst hcur
      have hpick : pickNext kb ll rl (k :: rest) = pickNext kb ll rl rest := by
        rw [pickNext, hk]
        by_cases h1 : (k.isLeftHand && ll) = true
        · simp only [h1, if_true]
        · have h2 : (!k.isLeftHand && rl) = true := by
            rcases Bool.or_eq_true_iff.mp hlock with h | h
            · exact absurd h h1
            · exact h
          simp only [h1, if_false, h2, if_true, Bool.false_eq_true]
      show update kb d ⟨lt, rt, lg, rg, ll, rl, k :: rest, none⟩
        = update kb d ⟨lt, rt, lg, rg, ll, rl, rest, none⟩
      unfold update moveArms processKeypressQueue
      simp only [hpick]

/-- A one-key keyboard mapping the character a to a left-hand key at the
origin, and a controller whose left arm is locked with that keystroke at the
front of the queue. -/
noncomputable def kbA : Keyboard :=
  fun c => if c = 'a' then some ⟨⟨0, 0, 0⟩, true⟩ else none

noncomputable def tcLocked : TC :=
  { leftArmTarget := ⟨0, 0, 0⟩, rightArmTarget := ⟨0, 0, 0⟩
    leftArmTargetGoal := ⟨0, 0, 0⟩, rightArmTargetGoal := ⟨0, 0, 0⟩
    leftArmLocked := true, rightArmLocked := false
    keypressQueue := [⟨'a', true, Phase.hover, 0⟩], currentKeypress := none }

/-- Counterexample to claim C6 as stated: with the left hand locked and a
left-hand keystroke at the front of the queue, a single `update` leaves the
queue empty and no keypress active — the keystroke was removed from the
queue (discarded), not kept pending until unlock — and it never executed. -/
theorem locked_keystroke_pending_refuted :
    tcLocked.leftArmLocked = true ∧ tcLocked.keypressQueue ≠ [] ∧
    (update kbA 0.016 tcLocked).1.keypressQueue = [] ∧
    (update kbA 0.016 tcLocked).1.currentKeypress = none ∧
    (update kbA 0.016 tcLocked).2 = [] := by
  have hz : distV ⟨0, 0, 0⟩ ⟨0, 0, 0⟩ = 0 := by
    simp [distV, normV, vsub, Real.sqrt_zero]
  have harm : updateArmPosition ⟨0, 0, 0⟩ ⟨0, 0, 0⟩ (ARM_SPEED * 0.016) = ⟨0, 0, 0⟩ := by
    unfold updateArmPosition
    rw [hz]
    norm_num
  have hpickA : pickNext kbA true false [⟨'a', true, Phase.hover, 0⟩] = (none, []) := by
    rw [pickNext]
    have : kbA 'a' = some ⟨⟨0, 0, 0⟩, true⟩ := by simp [kbA]
    rw [this]
    simp [pickNext]
  refine ⟨rfl, by simp [tcLocked], ?_, ?_, ?_⟩ <;>
    · show _
      unfold update moveArms processKeypressQueue tcLocked
      simp only [harm, hpickA]
      rfl

theorem locked_front_keystroke_dropped_witness :
    tcLocked.keypressQueue = [⟨'a', true, Phase.hover, 0⟩] ∧
    tcLocked.currentKeypress = none ∧
    kbA 'a' = some ⟨⟨0, 0, 0⟩, true⟩ ∧
    ((((⟨'a', true, Phase.hover, 0⟩ : Keypress).isLeftHand && tcLocked.leftArmLocked)
        || (!(⟨'a', true, Phase.hover, 0⟩ : Keypress).isLeftHand && tcLocked.rightArmLocked))
      = true) ∧
    update kbA 0.016 tcLocked = update kbA 0.016 { tcLocked with keypressQueue := [] } :=
  ⟨rfl, rfl, by simp [kbA], rfl,
    locked_front_keystroke_dropped kbA 0.016 tcLocked ⟨'a', true, Phase.hover, 0⟩ []
      ⟨⟨0, 0, 0⟩, true⟩ rfl rfl (by simp [kbA]) rfl⟩

/-! ### Claim C1: keystroke ordering and eventual completion -/

theorem normV_nonneg (v : Vec3) : 0 ≤ normV v := Real.sqrt_nonneg _

theorem distV_nonneg (a b : Vec3) : 0 ≤ distV a b := Real.sqrt_nonneg _

theorem distV_self (a : Vec3) : distV a a = 0 := by
  simp [distV, normV, vsub]

theorem normV_smul (c : ℝ) (v : Vec3) : normV (smulV c v) = |c| * normV v := by
  unfold normV smulV
  have h1 : (c * v.x) ^ 2 + (c * v.y) ^ 2 + (c * v.z) ^ 2
      = c ^ 2 * (v.x ^ 2 + v.y ^ 2 + v.z ^ 2) := by ring
  rw [h1, Real.sqrt_mul (sq_nonneg c), Real.sqrt_sq_eq_abs]

/-- Distance to the goal after one `lerp` step of length `m` toward it. -/
theorem distV_lerp (t g : Vec3) (m : ℝ) (hm : 0 < m) (hlt : m < distV t g) :
    distV (lerpV t g (m / distV t g)) g = distV t g - m := by
  have hd : 0 < distV t g := lt_trans hm hlt
  have hsub : vsub (lerpV t g (m / distV t g)) g
      = smulV (1 - m / distV t g) (vsub t g) := by
    unfold lerpV vsub vadd smulV
    have hx : t.x + m / distV t g * (g.x - t.x) - g.x
        = (1 - m / distV t g) * (t.x - g.x) := by ring
    have hy : t.y + m / distV t g * (g.y - t.y) - g.y
        = (1 - m / distV t g) * (t.y - g.y) := by ring
    have hz : t.z + m / distV t g * (g.z - t.z) - g.z
        = (1 - m / distV t g) * (t.z - g.z) := by ring
    simp only []
    rw [hx, hy, hz]
  unfold distV at *
  rw [hsub, normV_smul]
  have hfrac : m / normV (vsub t g) < 1 := by
    rw [div_lt_one hd]
    exact hlt
  have habs : |1 - m / normV (vsub t g)| = 1 - m / normV (vsub t g) := by
    rw [abs_of_nonneg]
    linarith
  rw [habs]
  field_simp

/-- One `_updateArmPosition` step shrinks the distance to the goal by `m`
until it collapses to zero, except that `≤ 0.001` distances are left alone. -/
theorem updateArmPosition_progress (t g : Vec3) (m : ℝ) (hm : 0 < m) :
    distV (updateArmPosition t g m) g ≤ max (distV t g - m) 0.001 := by
  unfold updateArmPosition
  by_cases h1 : distV t g > 0.001
  · rw [if_pos h1]
    by_cases h2 : distV t g ≤ m
    · rw [if_pos h2, distV_self]
      have : (0.001 : ℝ) ≤ max (distV t g - m) 0.001 := le_max_right _ _
      linarith
    · rw [if_neg h2]
      push_neg at h2
      rw [distV_lerp t g m hm h2]
      exact le_max_left _ _
  · rw [if_neg h1]
    push_neg at h1
    exact le_trans h1 (le_max_right _ _)

/-- The hand-indexed arm target (left for `true`). -/
def handTarget (s : TC) (h : Bool) : Vec3 := if h then s.leftArmTarget else s.rightArmTarget

/-- The hand-indexed arm goal. -/
def handGoal (s : TC) (h : Bool) : Vec3 :=
  if h then s.leftArmTargetGoal else s.rightArmTargetGoal

/-- The hand-indexed lock flag. -/
def lockOf (s : TC) (h : Bool) : Bool := if h then s.leftArmLocked else s.rightArmLocked

theorem moveArms_fields (m : ℝ) (s : TC) :
    (moveArms m s).keypressQueue = s.keypressQueue ∧
    (moveArms m s).currentKeypress = s.currentKeypress ∧
    (∀ h, handGoal (moveArms m s) h = handGoal s h) ∧
    (∀ h, lockOf (moveArms m s) h = lockOf s h) ∧
    (∀ h, handTarget (moveArms m s) h = updateArmPosition (handTarget s h) (handGoal s h) m) := by
  refine ⟨rfl, rfl, fun h => ?_, fun h => ?_, fun h => ?_⟩ <;>
    · cases h <;> rfl

theorem processKeypressQueue_some (kb : Keyboard) (s : TC) (k : Keypress)
    (h : s.currentKeypress = some k) : processKeypressQueue kb s = s := by
  unfold processKeypressQueue
  rw [h]

theorem update_some_far (kb : Keyboard) (d : ℝ) (s : TC) (k : Keypress)
    (hcur : s.currentKeypress = some k)
    (hfar : ¬ distV (handTarget (moveArms (ARM_SPEED * d) s) k.isLeftHand)
        (handGoal (moveArms (ARM_SPEED * d) s) k.isLeftHand) < KEYPRESS_THRESHOLD) :
    update kb d s = (moveArms (ARM_SPEED * d) s, []) := by
  have hcur1 : (moveArms (ARM_SPEED * d) s).currentKeypress = some k :=
    (moveArms_fields (ARM_SPEED * d) s).2.1.trans hcur
  unfold update
  rw [processKeypressQueue_some kb _ k hcur1]
  unfold updateCurrentKeypress
  simp only [hcur1]
  unfold handTarget handGoal at hfar
  rw [if_neg hfar]

/-- The state and callback produced by the phase advance that fires once the
arm is within the threshold. -/
noncomputable def advanceResult (s1 : TC) (k : Keypress) : TC × List Char :=
  match k.phase with
  | Phase.hover =>
      ({ setGoalY s1 k.isLeftHand (k.keyY + PRESS_HEIGHT) with
          currentKeypress := some { k with phase := Phase.press } }, [])
  | Phase.press =>
      ({ setGoalY s1 k.isLeftHand (k.keyY + HOVER_HEIGHT) with
          currentKeypress := some { k with phase := Phase.lift } }, [k.char])
  | Phase.lift => ({ s1 with currentKeypress := none }, [])

theorem update_some_near (kb : Keyboard) (d : ℝ) (s : TC) (k : Keypress)
    (hcur : s.currentKeypress = some k)
    (hnear : distV (handTarget (moveArms (ARM_SPEED * d) s) k.isLeftHand)
        (handGoal (moveArms (ARM_SPEED * d) s) k.isLeftHand) < KEYPRESS_THRESHOLD) :
    update kb d s = advanceResult (moveArms (ARM_SPEED * d) s) k := by
  have hcur1 : (moveArms (ARM_SPEED * d) s).currentKeypress = some k :=
    (moveArms_fields (ARM_SPEED * d) s).2.1.trans hcur
  unfold update
  rw [processKeypressQueue_some kb _ k hcur1]
  unfold updateCurrentKeypress
  simp only [hcur1]
  unfold handTarget handGoal at hnear
  rw [if_pos hnear]
  unfold advanceResult
  rcases k with ⟨c, hand, ph, ky⟩
  cases ph <;> rfl

/-- The keypress state and emitted character after one phase advance. -/
def nextOf (k : Keypress) : Option Keypress × List Char :=
  match k.phase with
  | Phase.hover => (some { k with phase := Phase.press }, [])
  | Phase.press => (some { k with phase := Phase.lift }, [k.char])
  | Phase.lift => (none, [])

theorem setGoalY_fields (s : TC) (hb : Bool) (y : ℝ) :
    (setGoalY s hb y).keypressQueue = s.keypressQueue ∧
    (∀ h, lockOf (setGoalY s hb y) h = lockOf s h) := by
  unfold setGoalY
  cases hb <;> exact ⟨rfl, fun h => by cases h <;> rfl⟩

theorem advanceResult_fields (s1 : TC) (k : Keypress) :
    (advanceResult s1 k).1.currentKeypress = (nextOf k).1 ∧
    (advanceResult s1 k).2 = (nextOf k).2 ∧
    (advanceResult s1 k).1.keypressQueue = s1.keypressQueue ∧
    (∀ h, lockOf (advanceResult s1 k).1 h = lockOf s1 h) := by
  unfold advanceResult nextOf
  rcases k with ⟨c, hand, ph, ky⟩
  cases ph
  · exact ⟨rfl, rfl, (setGoalY_fields _ _ _).1, fun h => (setGoalY_fields _ _ _).2 h⟩
  · exact ⟨rfl, rfl, (setGoalY_fields _ _ _).1, fun h => (setGoalY_fields _ _ _).2 h⟩
  · exact ⟨rfl, rfl, rfl, fun h => by cases h <;> rfl⟩

/-- While a keypress is active, iterating `update` with a fixed positive
delta advances its phase within finitely many frames: the distance to the
(fixed) goal shrinks by `4·delta` per frame until the threshold check fires. -/
theorem phase_advances (kb : Keyboard) (d : ℝ) (hd : 0 < d) (b : Nat) :
    ∀ (s : TC) (k : Keypress), s.currentKeypress = some k →
    distV (handTarget s k.isLeftHand) (handGoal s k.isLeftHand)
      ≤ KEYPRESS_THRESHOLD + b * (ARM_SPEED * d) →
    ∃ n s2, n ≤ b ∧ run kb d (n + 1) s = (s2, (nextOf k).2) ∧
      s2.currentKeypress = (nextOf k).1 ∧
      s2.keypressQueue = s.keypressQueue ∧
      (∀ h, lockOf s2 h = lockOf s h) := by
  have hm : 0 < ARM_SPEED * d := by
    unfold ARM_SPEED
    linarith
  induction b with
  | zero =>
      intro s k hcur hb
      simp only [Nat.cast_zero, zero_mul, add_zero] at hb
      set s1 := moveArms (ARM_SPEED * d) s with hs1
      have hgoal := (moveArms_fields (ARM_SPEED * d) s).2.2.1 k.isLeftHand
      have htar := (moveArms_fields (ARM_SPEED * d) s).2.2.2.2 k.isLeftHand
      have hprog := updateArmPosition_progress (handTarget s k.isLeftHand)
        (handGoal s k.isLeftHand) (ARM_SPEED * d) hm
      have hnear : distV (handTarget s1 k.isLeftHand) (handGoal s1 k.isLeftHand)
          < KEYPRESS_THRESHOLD := by
        rw [htar, hgoal]
        have h1 : distV (handTarget s k.isLeftHand) (handGoal s k.isLeftHand)
            - ARM_SPEED * d < KEYPRESS_THRESHOLD := by linarith
        have h2 : (0.001 : ℝ) < KEYPRESS_THRESHOLD := by unfold KEYPRESS_THRESHOLD; norm_num
        calc distV (updateArmPosition (handTarget s k.isLeftHand)
                (handGoal s k.isLeftHand) (ARM_SPEED * d)) (handGoal s k.isLeftHand)
            ≤ max (distV (handTarget s k.isLeftHand) (handGoal s k.isLeftHand)
                - ARM_SPEED * d) 0.001 := hprog
          _ < KEYPRESS_THRESHOLD := max_lt h1 h2
      refine ⟨0, (advanceResult s1 k).1, le_refl 0, ?_, ?_, ?_, ?_⟩
      · show run kb d 1 s = _
        rw [run]
        rw [update_some_near kb d s k hcur hnear]
        rw [run]
        simp [(advanceResult_fields s1 k).2.1]
      · exact (advanceResult_fields s1 k).1
      · rw [(advanceResult_fields s1 k).2.2.1, hs1]
        exact (moveArms_fields (ARM_SPEED * d) s).1
      · intro h
        rw [(advanceResult_fields s1 k).2.2.2 h, hs1]
        exact (moveArms_fields (ARM_SPEED * d) s).2.2.2.1 h
  | succ b ih =>
      intro s k hcur hb
      set s1 := moveArms (ARM_SPEED * d) s with hs1
      have hgoal := (moveArms_fields (ARM_SPEED * d) s).2.2.1 k.isLeftHand
      have htar := (moveArms_fields (ARM_SPEED * d) s).2.2.2.2 k.isLeftHand
      have hprog := updateArmPosition_progress (handTarget s k.isLeftHand)
        (handGoal s k.isLeftHand) (ARM_SPEED * d) hm
      by_cases hnear : distV (handTarget s1 k.isLeftHand) (handGoal s1 k.isLeftHand)
          < KEYPRESS_THRESHOLD
      · refine ⟨0, (advanceResult s1 k).1, Nat.zero_le _, ?_, ?_, ?_, ?_⟩
        · show run kb d 1 s = _
          rw [run]
          rw [update_some_near kb d s k hcur hnear]
          rw [run]
          simp [(advanceResult_fields s1 k).2.1]
        · exact (advanceResult_fields s1 k).1
        · rw [(advanceResult_fields s1 k).2.2.1, hs1]
          exact (moveArms_fields (ARM_SPEED * d) s).1
        · intro h
          rw [(advanceResult_fields s1 k).2.2.2 h, hs1]
          exact (moveArms_fields (ARM_SPEED * d) s).2.2.2.1 h
      · -- still outside the threshold: the distance dropped by a full step
        have hcur1 : s1.currentKeypress = some k :=
          (moveArms_fields (ARM_SPEED * d) s).2.1.trans hcur
        have hb1 : distV (handTarget s1 k.isLeftHand) (handGoal s1 k.isLeftHand)
            ≤ KEYPRESS_THRESHOLD + b * (ARM_SPEED * d) := by
          rw [htar, hgoal]
          push_neg at hnear
          have hth : (0.001 : ℝ) ≤ KEYPRESS_THRESHOLD + b * (ARM_SPEED * d) := by
            have : (0 : ℝ) ≤ b * (ARM_SPEED * d) := by positivity
            unfold KEYPRESS_THRESHOLD
            linarith
          have hsub : distV (handTarget s k.isLeftHand) (handGoal s k.isLeftHand)
                - ARM_SPEED * d
              ≤ KEYPRESS_THRESHOLD + b * (ARM_SPEED * d) := by
            have hcast : ((b + 1 : Nat) : ℝ) = (b : ℝ) + 1 := by push_cast; ring
            rw [hcast] at hb
            nlinarith
          calc distV (updateArmPosition (handTarget s k.isLeftHand)
                  (handGoal s k.isLeftHand) (ARM_SPEED * d)) (handGoal s k.isLeftHand)
              ≤ max (distV (handTarget s k.isLeftHand) (handGoal s k.isLeftHand)
                  - ARM_SPEED * d) 0.001 := hprog
            _ ≤ KEYPRESS_THRESHOLD + b * (ARM_SPEED * d) := max_le hsub hth
        obtain ⟨n, s2, hn, hrun, hcur2, hq2, hl2⟩ := ih s1 k hcur1 hb1
        refine ⟨n + 1, s2, Nat.succ_le_succ hn, ?_, hcur2, ?_, ?_⟩
        · show run kb d (n + 1 + 1) s = _
          rw [show n + 1 + 1 = (n + 1) + 1 from rfl, run]
          rw [update_some_far kb d s k hcur hnear]
          simp only [← hs1, hrun]
          rw [List.nil_append]
        · rw [hq2, hs1]
          exact (moveArms_fields (ARM_SPEED * d) s).1
        · intro h
          rw [hl2 h, hs1]
          exact (moveArms_fields (ARM_SPEED * d) s).2.2.2.1 h

theorem run_add (kb : Keyboard) (d : ℝ) (n1 n2 : Nat) (s : TC) :
    run kb d (n1 + n2) s
      = ((run kb d n2 (run kb d n1 s).1).1,
          (run kb d n1 s).2 ++ (run kb d n2 (run kb d n1 s).1).2) := by
  induction n1 generalizing s with
  | zero =>
      rw [Nat.zero_add]
      rw [show run kb d 0 s = (s, []) from rfl]
      rw [List.nil_append]
  | succ n1 ih =>
      rw [show n1 + 1 + n2 = (n1 + n2) + 1 by omega]
      rw [run, ih]
      rw [show run kb d (n1 + 1) s
        = ((run kb d n1 (update kb d s).1).1,
            (update kb d s).2 ++ (run kb d n1 (update kb d s).1).2) from rfl]
      rw [List.append_assoc]

theorem exists_bound (x m : ℝ) (hm : 0 < m) :
    ∃ b : Nat, x ≤ KEYPRESS_THRESHOLD + b * m := by
  obtain ⟨b, hb⟩ := exists_nat_ge ((x - KEYPRESS_THRESHOLD) / m)
  refine ⟨b, ?_⟩
  have h1 : x - KEYPRESS_THRESHOLD ≤ b * m := by
    rw [div_le_iff₀ hm] at hb
    linarith
  linarith

/-- `phase_advances` without an explicit step bound. -/
theorem phase_advances_ex (kb : Keyboard) (d : ℝ) (hd : 0 < d) (s : TC) (k : Keypress)
    (hcur : s.currentKeypress = some k) :
    ∃ n s2, run kb d (n + 1) s = (s2, (nextOf k).2) ∧
      s2.currentKeypress = (nextOf k).1 ∧
      s2.keypressQueue = s.keypressQueue ∧
      (∀ h, lockOf s2 h = lockOf s h) := by
  have hm : 0 < ARM_SPEED * d := by
    unfold ARM_SPEED
    linarith
  obtain ⟨b, hb⟩ := exists_bound
    (distV (handTarget s k.isLeftHand) (handGoal s k.isLeftHand)) (ARM_SPEED * d) hm
  obtain ⟨n, s2, _, hrest⟩ := phase_advances kb d hd b s k hcur hb
  exact ⟨n, s2, hrest⟩

/-- The frame on which a playable queued keypress is popped: it installs
itself as the current keypress (possibly advancing straight from hover to
press when the arm is already at its hover goal) and emits nothing. -/
theorem update_pop (kb : Keyboard) (d : ℝ) (s : TC) (k : Keypress)
    (rest : List Keypress) (ki : KeyInfo)
    (hcur : s.currentKeypress = none) (hq : s.keypressQueue = k :: rest)
    (hph : k.phase = Phase.hover)
    (hk : kb k.char = some ki) (hl : lockOf s k.isLeftHand = false) :
    ∃ s2, update kb d s = (s2, []) ∧
      (s2.currentKeypress = some k ∨
        s2.currentKeypress = some { k with phase := Phase.press }) ∧
      s2.keypressQueue = rest ∧
      (∀ h, lockOf s2 h = lockOf s h) := by
  have hcur1 : (moveArms (ARM_SPEED * d) s).currentKeypress = none :=
    (moveArms_fields (ARM_SPEED * d) s).2.1.trans hcur
  have hq1 : (moveArms (ARM_SPEED * d) s).keypressQueue = k :: rest :=
    ((moveArms_fields (ARM_SPEED * d) s).1).trans hq
  have hlockMv : ∀ h, lockOf (moveArms (ARM_SPEED * d) s) h = lockOf s h :=
    (moveArms_fields (ARM_SPEED * d) s).2.2.2.1
  have hlock1L : (k.isLeftHand && (moveArms (ARM_SPEED * d) s).leftArmLocked) = false := by
    rcases hh : k.isLeftHand with _ | _
    · simp
    · have h1 := hlockMv true
      unfold lockOf at h1 hl
      rw [hh] at hl
      simp only [if_true] at h1 hl
      rw [h1, hl]
      simp
  have hlock1R : (!k.isLeftHand && (moveArms (ARM_SPEED * d) s).rightArmLocked) = false := by
    rcases hh : k.isLeftHand with _ | _
    · have h1 := hlockMv false
      unfold lockOf at h1 hl
      rw [hh] at hl
      simp only [Bool.false_eq_true, if_false] at h1 hl
      rw [h1, hl]
      simp
    · simp
  have hpick : pickNext kb (moveArms (ARM_SPEED * d) s).leftArmLocked
      (moveArms (ARM_SPEED * d) s).rightArmLocked
      (moveArms (ARM_SPEED * d) s).keypressQueue = (some (k, ki), rest) := by
    rw [hq1, pickNext]
    simp only [hk]
    rw [if_neg (by rw [hlock1L]; simp), if_neg (by rw [hlock1R]; simp)]
  have hproc : processKeypressQueue kb (moveArms (ARM_SPEED * d) s) =
      (if k.isLeftHand then
        { moveArms (ARM_SPEED * d) s with
            currentKeypress := some k, keypressQueue := rest
            leftArmTargetGoal := ⟨ki.position.x, ki.position.y + HOVER_HEIGHT, ki.position.z⟩ }
      else
        { moveArms (ARM_SPEED * d) s with
            currentKeypress := some k, keypressQueue := rest
            rightArmTargetGoal := ⟨ki.position.x, ki.position.y + HOVER_HEIGHT, ki.position.z⟩ }) := by
    unfold processKeypressQueue
    rw [hcur1, hpick]
  have hcur2 : (processKeypressQueue kb (moveArms (ARM_SPEED * d) s)).currentKeypress
      = some k := by
    rw [hproc]
    rcases k.isLeftHand with _ | _ <;> simp
  have hq2 : (processKeypressQueue kb (moveArms (ARM_SPEED * d) s)).keypressQueue = rest := by
    rw [hproc]
    rcases k.isLeftHand with _ | _ <;> simp
  have hl2 : ∀ h, lockOf (processKeypressQueue kb (moveArms (ARM_SPEED * d) s)) h
      = lockOf s h := by
    intro h
    rw [hproc]
    have hmv := hlockMv h
    rcases k.isLeftHand with _ | _ <;> rcases h with _ | _ <;>
      simpa [lockOf] using hmv
  have hupd : update kb d s
      = updateCurrentKeypress (processKeypressQueue kb (moveArms (ARM_SPEED * d) s)) := rfl
  by_cases hnear : distV
      (if k.isLeftHand then (processKeypressQueue kb (moveArms (ARM_SPEED * d) s)).leftArmTarget
        else (processKeypressQueue kb (moveArms (ARM_SPEED * d) s)).rightArmTarget)
      (if k.isLeftHand then (processKeypressQueue kb (moveArms (ARM_SPEED * d) s)).leftArmTargetGoal
        else (processKeypressQueue kb (moveArms (ARM_SPEED * d) s)).rightArmTargetGoal)
      < KEYPRESS_THRESHOLD
  · -- instant hover-to-press advance on the pop frame
    refine ⟨{ setGoalY (processKeypressQueue kb (moveArms (ARM_SPEED * d) s)) k.isLeftHand
          (k.keyY + PRESS_HEIGHT) with
        currentKeypress := some { k with phase := Phase.press } }, ?_, Or.inr rfl, ?_, ?_⟩
    · rw [hupd]
      unfold updateCurrentKeypress
      simp only [hcur2]
      rw [if_pos hnear, hph]
    · show (setGoalY (processKeypressQueue kb (moveArms (ARM_SPEED * d) s)) k.isLeftHand
          (k.keyY + PRESS_HEIGHT)).keypressQueue = rest
      rw [(setGoalY_fields _ k.isLeftHand _).1]
      exact hq2
    · intro h
      have h1 : lockOf ({ setGoalY (processKeypressQueue kb (moveArms (ARM_SPEED * d) s))
            k.isLeftHand (k.keyY + PRESS_HEIGHT) with
          currentKeypress := some { k with phase := Phase.press } } : TC) h
          = lockOf (setGoalY (processKeypressQueue kb (moveArms (ARM_SPEED * d) s))
            k.isLeftHand (k.keyY + PRESS_HEIGHT)) h := by
        cases h <;> rfl
      rw [h1, (setGoalY_fields _ k.isLeftHand _).2 h]
      exact hl2 h
  · refine ⟨processKeypressQueue kb (moveArms (ARM_SPEED * d) s), ?_, Or.inl hcur2, hq2, hl2⟩
    rw [hupd]
    unfold updateCurrentKeypress
    simp only [hcur2]
    rw [if_neg hnear]

theorem run_one (kb : Keyboard) (d : ℝ) (s : TC) :
    run kb d 1 s = ((update kb d s).1, (update kb d s).2) := by
  rw [run]
  rw [show run kb d 0 (update kb d s).1 = ((update kb d s).1, []) from rfl]
  rw [List.append_nil]

/-- A popped hover keypress runs to completion: the callback fires exactly
once with its character, after which no keypress is active and the queue
holds exactly the entries behind it. -/
theorem complete_one (kb : Keyboard) (d : ℝ) (hd : 0 < d) (s : TC) (k : Keypress)
    (rest : List Keypress) (ki : KeyInfo)
    (hcur : s.currentKeypress = none) (hq : s.keypressQueue = k :: rest)
    (hph : k.phase = Phase.hover) (hk : kb k.char = some ki)
    (hl : lockOf s k.isLeftHand = false) :
    ∃ n s3, run kb d n s = (s3, [k.char]) ∧ s3.currentKeypress = none ∧
      s3.keypressQueue = rest ∧ (∀ h, lockOf s3 h = lockOf s h) := by
  obtain ⟨s2, hupd, hcase, hq2, hl2⟩ := update_pop kb d s k rest ki hcur hq hph hk hl
  have hrun1 : run kb d 1 s = (s2, []) := by
    rw [run_one, hupd]
  rcases hcase with hcase | hcase
  · -- hover -> press -> lift -> done
    obtain ⟨n1, sA, hrunA, hcurA, hqA, hlA⟩ := phase_advances_ex kb d hd s2 k hcase
    have hnk : nextOf k = (some { k with phase := Phase.press }, []) := by
      unfold nextOf
      rw [hph]
    rw [hnk] at hrunA hcurA
    obtain ⟨n2, sB, hrunB, hcurB, hqB, hlB⟩ :=
      phase_advances_ex kb d hd sA { k with phase := Phase.press } hcurA
    have hnk2 : nextOf { k with phase := Phase.press }
        = (some { k with phase := Phase.lift }, [k.char]) := rfl
    rw [hnk2] at hrunB hcurB
    obtain ⟨n3, sC, hrunC, hcurC, hqC, hlC⟩ :=
      phase_advances_ex kb d hd sB { k with phase := Phase.lift } hcurB
    have hnk3 : nextOf { k with phase := Phase.lift } = (none, []) := rfl
    rw [hnk3] at hrunC hcurC
    refine ⟨1 + (n1 + 1) + (n2 + 1) + (n3 + 1), sC, ?_, hcurC, ?_, ?_⟩
    · rw [run_add kb d (1 + (n1 + 1) + (n2 + 1)) (n3 + 1)]
      rw [run_add kb d (1 + (n1 + 1)) (n2 + 1)]
      rw [run_add kb d 1 (n1 + 1)]
      rw [hrun1]
      simp only [hrunA, hrunB, hrunC]
      simp
    · rw [hqC, hqB, hqA, hq2]
    · intro h
      rw [hlC h, hlB h, hlA h, hl2 h]
  · -- the pop frame already advanced hover to press
    obtain ⟨n2, sB, hrunB, hcurB, hqB, hlB⟩ :=
      phase_advances_ex kb d hd s2 { k with phase := Phase.press } hcase
    have hnk2 : nextOf { k with phase := Phase.press }
        = (some { k with phase := Phase.lift }, [k.char]) := rfl
    rw [hnk2] at hrunB hcurB
    obtain ⟨n3, sC, hrunC, hcurC, hqC, hlC⟩ :=
      phase_advances_ex kb d hd sB { k with phase := Phase.lift } hcurB
    have hnk3 : nextOf { k with phase := Phase.lift } = (none, []) := rfl
    rw [hnk3] at hrunC hcurC
    refine ⟨1 + (n2 + 1) + (n3 + 1), sC, ?_, hcurC, ?_, ?_⟩
    · rw [run_add kb d (1 + (n2 + 1)) (n3 + 1)]
      rw [run_add kb d 1 (n2 + 1)]
      rw [hrun1]
      simp only [hrunB, hrunC]
      simp
    · rw [hqC, hqB, hq2]
    · intro h
      rw [hlC h, hlB h, hl2 h]

/-- A frame with nothing queued and nothing active emits nothing and stays
drained (the arms may still glide toward their goals). -/
theorem update_idle (kb : Keyboard) (d : ℝ) (s : TC)
    (hcur : s.currentKeypress = none) (hq : s.keypressQueue = []) :
    ∃ s2, update kb d s = (s2, []) ∧ s2.currentKeypress = none ∧
      s2.keypressQueue = [] := by
  have hcur1 : (moveArms (ARM_SPEED * d) s).currentKeypress = none :=
    (moveArms_fields (ARM_SPEED * d) s).2.1.trans hcur
  have hq1 : (moveArms (ARM_SPEED * d) s).keypressQueue = [] :=
    ((moveArms_fields (ARM_SPEED * d) s).1).trans hq
  have hproc : processKeypressQueue kb (moveArms (ARM_SPEED * d) s)
      = { moveArms (ARM_SPEED * d) s with keypressQueue := [], currentKeypress := none } := by
    unfold processKeypressQueue
    rw [hcur1, hq1]
    rfl
  refine ⟨{ moveArms (ARM_SPEED * d) s with keypressQueue := [], currentKeypress := none },
    ?_, rfl, rfl⟩
  show updateCurrentKeypress (processKeypressQueue kb (moveArms (ARM_SPEED * d) s)) = _
  rw [hproc]
  rfl

theorem run_idle (kb : Keyboard) (d : ℝ) :
    ∀ (n : Nat) (s : TC), s.currentKeypress = none → s.keypressQueue = [] →
    (run kb d n s).2 = [] ∧ (run kb d n s).1.currentKeypress = none ∧
    (run kb d n s).1.keypressQueue = [] := by
  intro n
  induction n with
  | zero => intro s hcur hq; exact ⟨rfl, hcur, hq⟩
  | succ n ih =>
      intro s hcur hq
      obtain ⟨s2, hupd, hcur2, hq2⟩ := update_idle kb d s hcur hq
      obtain ⟨h1, h2, h3⟩ := ih s2 hcur2 hq2
      rw [run, hupd]
      exact ⟨by simpa using h1, h2, h3⟩

/-- Draining a queue of playable same-hand hover keypresses fires the
callback once per entry, in queue order. -/
theorem run_drain (kb : Keyboard) (d : ℝ) (hd : 0 < d) (hB : Bool) :
    ∀ (q : List Keypress) (s : TC), s.currentKeypress = none → s.keypressQueue = q →
    (∀ k ∈ q, k.phase = Phase.hover ∧ k.isLeftHand = hB ∧ ∃ ki, kb k.char = some ki) →
    lockOf s hB = false →
    ∃ n s2, run kb d n s = (s2, q.map (fun k => k.char)) ∧
      s2.currentKeypress = none ∧ s2.keypressQueue = [] ∧
      (∀ h, lockOf s2 h = lockOf s h) := by
  intro q
  induction q with
  | nil =>
      intro s hcur hq _ _
      exact ⟨0, s, rfl, hcur, hq, fun h => rfl⟩
  | cons k rest ih =>
      intro s hcur hq hall hlock
      obtain ⟨hph, hhand, ki, hk⟩ := hall k (List.mem_cons_self k rest)
      have hl : lockOf s k.isLeftHand = false := by rw [hhand]; exact hlock
      obtain ⟨n1, s3, hrun1, hcur3, hq3, hl3⟩ :=
        complete_one kb d hd s k rest ki hcur hq hph hk hl
      obtain ⟨n2, s4, hrun2, hcur4, hq4, hl4⟩ := ih s3 hcur3 hq3
        (fun k2 hk2 => hall k2 (List.mem_cons_of_mem k hk2)) ((hl3 hB).trans hlock)
      refine ⟨n1 + n2, s4, ?_, hcur4, hq4, fun h => (hl4 h).trans (hl3 h)⟩
      rw [run_add, hrun1, hrun2]
      simp

/-- Enqueue a list of characters through `typeCharacter`. -/
def enqueueList (kb : Keyboard) (cs : List Char) (s : TC) : TC :=
  cs.foldl (fun s c => typeCharacter kb c s) s

theorem enqueueList_spec (kb : Keyboard) (hB : Bool) :
    ∀ (cs : List Char) (s : TC),
    (∀ c ∈ cs, ∃ ki, kb c = some ki ∧ ki.isLeftHand = hB) →
    ∃ q, (enqueueList kb cs s).keypressQueue = s.keypressQueue ++ q ∧
      q.map (fun k => k.char) = cs ∧
      (∀ k ∈ q, k.phase = Phase.hover ∧ k.isLeftHand = hB ∧ ∃ ki, kb k.char = some ki) ∧
      (enqueueList kb cs s).currentKeypress = s.currentKeypress ∧
      (∀ h, lockOf (enqueueList kb cs s) h = lockOf s h) := by
  intro cs
  induction cs with
  | nil =>
      intro s _
      exact ⟨[], by simp [enqueueList], rfl, by simp, rfl, fun h => rfl⟩
  | cons c rest ih =>
      intro s hall
      obtain ⟨ki, hk, hh⟩ := hall c (List.mem_cons_self c rest)
      have hstep : enqueueList kb (c :: rest) s = enqueueList kb rest (typeCharacter kb c s) :=
        rfl
      have htc : typeCharacter kb c s
          = { s with keypressQueue :=
              s.keypressQueue ++ [⟨c, ki.isLeftHand, Phase.hover, ki.position.y⟩] } := by
        unfold typeCharacter
        rw [hk]
      obtain ⟨q, hq, hmap, hprops, hcur, hlocks⟩ := ih (typeCharacter kb c s)
        (fun c2 hc2 => hall c2 (List.mem_cons_of_mem c hc2))
      refine ⟨⟨c, ki.isLeftHand, Phase.hover, ki.position.y⟩ :: q, ?_, ?_, ?_, ?_, ?_⟩
      · rw [hstep, hq, htc]
        simp
      · simp only [List.map_cons, hmap]
      · intro k2 hk2
        rcases List.mem_cons.mp hk2 with h2 | h2
        · subst h2
          exact ⟨rfl, hh, ki, hk⟩
        · exact hprops k2 h2
      · rw [hstep, hcur, htc]
      · intro h
        rw [hstep, hlocks h, htc]
        cases h <;> rfl

/-- Claim C1: enqueue any character sequence for one hand (each character
mapping to a key of that hand, the hand unlocked); iterating `update` with
any fixed positive delta eventually fires the `onKeyPressed` callback
exactly once per character, in enqueue order, every keypress completes, and
every later frame adds no further callback. -/
theorem typing_callbacks_in_order (kb : Keyboard) (d : ℝ) (hd : 0 < d) (hB : Bool)
    (cs : List Char) (s : TC)
    (hq : s.keypressQueue = []) (hcur : s.currentKeypress = none)
    (hlock : lockOf s hB = false)
    (hcs : ∀ c ∈ cs, ∃ ki, kb c = some ki ∧ ki.isLeftHand = hB) :
    ∃ n, ∀ m, n ≤ m →
      (run kb d m (enqueueList kb cs s)).2 = cs ∧
      (run kb d m (enqueueList kb cs s)).1.currentKeypress = none ∧
      (run kb d m (enqueueList kb cs s)).1.keypressQueue = [] := by
  obtain ⟨q, hq1, hmap, hprops, hcur1, hlocks1⟩ := enqueueList_spec kb hB cs s hcs
  have hq2 : (enqueueList kb cs s).keypressQueue = q := by
    rw [hq1, hq]
    simp
  have hcur2 : (enqueueList kb cs s).currentKeypress = none := hcur1.trans hcur
  have hlock2 : lockOf (enqueueList kb cs s) hB = false := (hlocks1 hB).trans hlock
  obtain ⟨n, s2, hrun, hcur3, hq3, _⟩ :=
    run_drain kb d hd hB q (enqueueList kb cs s) hcur2 hq2 hprops hlock2
  refine ⟨n, fun m hm => ?_⟩
  obtain ⟨h1, h2, h3⟩ := run_idle kb d (m - n) s2 hcur3 hq3
  rw [show m = n + (m - n) by omega, run_add, hrun]
  refine ⟨?_, h2, h3⟩
  rw [hmap] at hrun ⊢
  simp [h1, hrun]

/-- Two left-hand keys for the C1 witness. -/
noncomputable def kbAB : Keyboard :=
  fun c =>
    if c = 'a' then some ⟨⟨0, 0, 0⟩, true⟩
    else if c = 'b' then some ⟨⟨1, 0, 0⟩, true⟩
    else none

/-- An idle controller: arms at rest, nothing queued, nothing locked. -/
noncomputable def tcIdle : TC :=
  { leftArmTarget := ⟨0, 0, 0⟩, rightArmTarget := ⟨0, 0, 0⟩
    leftArmTargetGoal := ⟨0, 0, 0⟩, rightArmTargetGoal := ⟨0, 0, 0⟩
    leftArmLocked := false, rightArmLocked := false
    keypressQueue := [], currentKeypress := none }

theorem typing_callbacks_in_order_witness :
    (0 : ℝ) < 1 ∧ tcIdle.keypressQueue = [] ∧ tcIdle.currentKeypress = none ∧
    lockOf tcIdle true = false ∧
    (∀ c ∈ ['a', 'b'], ∃ ki, kbAB c = some ki ∧ ki.isLeftHand = true) ∧
    (∃ n, ∀ m, n ≤ m →
      (run kbAB 1 m (enqueueList kbAB ['a', 'b'] tcIdle)).2 = ['a', 'b'] ∧
      (run kbAB 1 m (enqueueList kbAB ['a', 'b'] tcIdle)).1.currentKeypress = none ∧
      (run kbAB 1 m (enqueueList kbAB ['a', 'b'] tcIdle)).1.keypressQueue = []) := by
  have hcs : ∀ c ∈ ['a', 'b'], ∃ ki, kbAB c = some ki ∧ ki.isLeftHand = true := by
    intro c hc
    rcases List.mem_cons.mp hc with h | h
    · subst h
      exact ⟨⟨⟨0, 0, 0⟩, true⟩, by simp [kbAB], rfl⟩
    · rcases List.mem_cons.mp h with h2 | h2
      · subst h2
        exact ⟨⟨⟨1, 0, 0⟩, true⟩, by simp [kbAB], rfl⟩
      · exact absurd h2 (List.not_mem_nil c)
  exact ⟨one_pos, rfl, rfl, rfl, hcs,
    typing_callbacks_in_order kbAB 1 one_pos true ['a', 'b'] tcIdle rfl rfl rfl hcs⟩

/-! ### Two-bone IK solver (ik.js)

The solver is embedded over the reals, with THREE.js vector/quaternion
operations modelled from their library definitions (`normalize` divides by
`length() || 1`; `Quaternion.invert` is conjugation; `setFromUnitVectors`
and `applyQuaternion` follow the THREE source formulas). -/

theorem vec3_eq (a b : Vec3) (hx : a.x = b.x) (hy : a.y = b.y) (hz : a.z = b.z) :
    a = b := by
  cases a
  cases b
  simp_all

/-- `dot`. -/
def dotV (a b : Vec3) : ℝ := a.x * b.x + a.y * b.y + a.z * b.z

/-- `lengthSq`. -/
def normSqV (v : Vec3) : ℝ := v.x ^ 2 + v.y ^ 2 + v.z ^ 2

/-- `crossVectors`. -/
def crossV (a b : Vec3) : Vec3 :=
  ⟨a.y * b.z - a.z * b.y, a.z * b.x - a.x * b.z, a.x * b.y - a.y * b.x⟩

/-- `normalize()`: divide by `length() || 1`, so the zero vector stays put. -/
noncomputable def normalizeV (v : Vec3) : Vec3 :=
  if normV v = 0 then v else smulV (1 / normV v) v

/-- `THREE.MathUtils.clamp(value, min, max)`. -/
noncomputable def clampR (v lo hi : ℝ) : ℝ := max lo (min hi v)

/-- A THREE.Quaternion. -/
structure Quat where
  x : ℝ
  y : ℝ
  z : ℝ
  w : ℝ

theorem quat_eq (a b : Quat) (hx : a.x = b.x) (hy : a.y = b.y) (hz : a.z = b.z)
    (hw : a.w = b.w) : a = b := by
  cases a
  cases b
  simp_all

/-- The identity quaternion. -/
def qId : Quat := ⟨0, 0, 0, 1⟩

/-- `Quaternion.setFromAxisAngle` (axis assumed normalized by the caller). -/
noncomputable def qSetFromAxisAngle (axis : Vec3) (angle : ℝ) : Quat :=
  ⟨axis.x * Real.sin (angle / 2), axis.y * Real.sin (angle / 2),
    axis.z * Real.sin (angle / 2), Real.cos (angle / 2)⟩

/-- `Quaternion.invert` (conjugation; THREE assumes unit length). -/
def qConj (q : Quat) : Quat := ⟨-q.x, -q.y, -q.z, q.w⟩

/-- `Quaternion.multiply` (Hamilton product, THREE component formulas). -/
def qMul (a b : Quat) : Quat :=
  ⟨a.x * b.w + a.w * b.x + a.y * b.z - a.z * b.y,
    a.y * b.w + a.w * b.y + a.z * b.x - a.x * b.z,
    a.z * b.w + a.w * b.z + a.x * b.y - a.y * b.x,
    a.w * b.w - a.x * b.x - a.y * b.y - a.z * b.z⟩

/-- Quaternion length. -/
noncomputable def qNorm (q : Quat) : ℝ := Real.sqrt (q.x ^ 2 + q.y ^ 2 + q.z ^ 2 + q.w ^ 2)

/-- `Quaternion.normalize`: zero length yields the identity. -/
noncomputable def qNormalize (q : Quat) : Quat :=
  if qNorm q = 0 then qId
  else ⟨q.x / qNorm q, q.y / qNorm q, q.z / qNorm q, q.w / qNorm q⟩

/-- `Vector3.applyQuaternion`, THREE component formulas
(`t = 2 q_v × v`; `v + q_w t + q_v × t`). -/
def applyQuaternion (v : Vec3) (q : Quat) : Vec3 :=
  let tx := 2 * (q.y * v.z - q.z * v.y)
  let ty := 2 * (q.z * v.x - q.x * v.z)
  let tz := 2 * (q.x * v.y - q.y * v.x)
  ⟨v.x + q.w * tx + (q.y * tz - q.z * ty),
    v.y + q.w * ty + (q.z * tx - q.x * tz),
    v.z + q.w * tz + (q.x * ty - q.y * tx)⟩

/-- `Number.EPSILON`. -/
noncomputable def nEPSILON : ℝ := 1 / 4503599627370496

/-- `Quaternion.setFromUnitVectors` (THREE source): near-antipodal inputs
take an arbitrary perpendicular axis, otherwise the cross product with
`w = dot + 1`, then normalize. -/
noncomputable def qSetFromUnitVectors (vFrom vTo : Vec3) : Quat :=
  let r := dotV vFrom vTo + 1
  if r < nEPSILON then
    if |vFrom.x| > |vFrom.z| then qNormalize ⟨-vFrom.y, vFrom.x, 0, 0⟩
    else qNormalize ⟨0, -vFrom.z, vFrom.y, 0⟩
  else qNormalize ⟨(crossV vFrom vTo).x, (crossV vFrom vTo).y, (crossV vFrom vTo).z, r⟩

/-- The arm record passed to `solveTwoBoneIK`: the shoulder's world
position, its parent's world rotation, and the bone lengths. -/
structure IKArm where
  shoulderWorld : Vec3
  parentQuat : Quat
  upperLength : ℝ
  forearmLength : ℝ

/-- The solver's outputs: the two local joint rotations it writes, plus the
elbow world position it computes on the way. -/
structure IKResult where
  shoulderQuat : Quat
  elbowQuat : Quat
  elbowPos : Vec3

/-- Lines 53-59: the target distance clamped into the reachable band. -/
noncomputable def ikClampedDist (sh target : Vec3) (u f : ℝ) : ℝ :=
  clampR (normV (vsub target sh)) (|u - f| + 0.001) (u + f - 0.001)

/-- Line 62: the normalized shoulder-to-target direction. -/
noncomputable def ikTargetDir (sh target : Vec3) : Vec3 := normalizeV (vsub target sh)

/-- Lines 71-76: the law-of-cosines shoulder bend angle. -/
noncomputable def ikShoulderAngle (sh target : Vec3) (u f : ℝ) : ℝ :=
  Real.arccos (clampR
    ((u ^ 2 + ikClampedDist sh target u f ^ 2 - f ^ 2) / (2 * u * ikClampedDist sh target u f))
    (-1) 1)

/-- Lines 87-104: the pole direction projected perpendicular to the target
direction, with the world-up/world-right fallback when degenerate. -/
noncomputable def ikPoleDir (sh target pole : Vec3) : Vec3 :=
  let dir := ikTargetDir sh target
  let v0 := vsub pole sh
  let v1 := vsub v0 (smulV (dotV v0 dir) dir)
  let v2 :=
    if normSqV v1 < 0.0001 then
      let a : Vec3 := if |dir.y| > 0.99 then ⟨1, 0, 0⟩ else ⟨0, 1, 0⟩
      vsub a (smulV (dotV a dir) dir)
    else v1
  normalizeV v2

/-- Lines 106-118: the elbow world position (rotate the upper arm away from
the target direction by the bend angle, about the bend-plane normal). -/
noncomputable def ikElbowPos (sh target pole : Vec3) (u f : ℝ) : Vec3 :=
  vadd sh (applyQuaternion (smulV u (ikTargetDir sh target))
    (qSetFromAxisAngle (normalizeV (crossV (ikTargetDir sh target) (ikPoleDir sh target pole)))
      (ikShoulderAngle sh target u f)))

/-- `solveTwoBoneIK(arm, targetWorld, poleWorld)` (lines 46-157).  Note that
the elbow-to-wrist direction on line 126 uses the raw `targetWorld`, not the
clamped one. -/
noncomputable def solveTwoBoneIK (arm : IKArm) (targetWorld poleWorld : Vec3) : IKResult :=
  let elbowPos := ikElbowPos arm.shoulderWorld targetWorld poleWorld
    arm.upperLength arm.forearmLength
  let toElbow := normalizeV (vsub elbowPos arm.shoulderWorld)
  let elbowToWrist := normalizeV (vsub targetWorld elbowPos)
  let parentQuatInverse := qConj arm.parentQuat
  let toElbowLocal := applyQuaternion toElbow parentQuatInverse
  let shoulderQuat := qSetFromUnitVectors ⟨0, -1, 0⟩ toElbowLocal
  let shoulderWorldQuat := qMul arm.parentQuat shoulderQuat
  let toWristLocal := applyQuaternion elbowToWrist (qConj shoulderWorldQuat)
  let elbowQuat := qSetFromUnitVectors ⟨0, -1, 0⟩ toWristLocal
  ⟨shoulderQuat, elbowQuat, elbowPos⟩

/-- The in-range point the solver actually reaches for: the target pulled
onto the clamped distance along the shoulder-to-target direction. -/
noncomputable def ikClampedTarget (sh target : Vec3) (u f : ℝ) : Vec3 :=
  vadd sh (smulV (ikClampedDist sh target u f) (ikTargetDir sh target))

/-! Basic facts about the embedded vector operations. -/

theorem dotV_comm (a b : Vec3) : dotV a b = dotV b a := by
  unfold dotV
  ring

theorem dotV_self_nonneg (v : Vec3) : 0 ≤ dotV v v := by
  unfold dotV
  nlinarith [sq_nonneg v.x, sq_nonneg v.y, sq_nonneg v.z]

theorem normV_eq_sqrt_dot (v : Vec3) : normV v = Real.sqrt (dotV v v) := by
  unfold normV dotV
  ring_nf

theorem dotV_self_eq_sq (v : Vec3) : dotV v v = normV v ^ 2 := by
  rw [normV_eq_sqrt_dot, Real.sq_sqrt (dotV_self_nonneg v)]

theorem normSqV_eq_dot (v : Vec3) : normSqV v = dotV v v := by
  unfold normSqV dotV
  ring

theorem normV_eq_sqrt_normSq (v : Vec3) : normV v = Real.sqrt (normSqV v) := rfl

theorem normV_pos_of_normSq (v : Vec3) (h : 0 < normSqV v) : 0 < normV v := by
  rw [normV_eq_sqrt_normSq]
  exact Real.sqrt_pos.mpr h

theorem normalizeV_eq (v : Vec3) (h : normV v ≠ 0) :
    normalizeV v = smulV (1 / normV v) v := by
  unfold normalizeV
  rw [if_neg h]

theorem dotV_smul_left (c : ℝ) (a b : Vec3) : dotV (smulV c a) b = c * dotV a b := by
  unfold dotV smulV
  ring

theorem dotV_smul_right (c : ℝ) (a b : Vec3) : dotV a (smulV c b) = c * dotV a b := by
  unfold dotV smulV
  ring

theorem normalizeV_dot_self (v : Vec3) (h : 0 < normV v) :
    dotV (normalizeV v) (normalizeV v) = 1 := by
  rw [normalizeV_eq v h.ne', dotV_smul_left, dotV_smul_right, dotV_self_eq_sq]
  field_simp
  ring

theorem normalizeV_perp (w v : Vec3) (h : normV v ≠ 0) (hw : dotV w v = 0) :
    dotV w (normalizeV v) = 0 := by
  rw [normalizeV_eq v h, dotV_smul_right, hw, mul_zero]

theorem smulV_one (v : Vec3) : smulV 1 v = v := by
  apply vec3_eq <;> simp [smulV]

theorem normalizeV_of_norm_one (v : Vec3) (h : normV v = 1) : normalizeV v = v := by
  rw [normalizeV_eq v (by rw [h]; exact one_ne_zero), h]
  norm_num [smulV_one]

/-- The projection of `a` off a unit direction `d` is perpendicular to `d`. -/
theorem proj_perp (a d : Vec3) (hd : dotV d d = 1) :
    dotV (vsub a (smulV (dotV a d) d)) d = 0 := by
  simp only [dotV, vsub, smulV] at hd ⊢
  linear_combination (-(a.x * d.x) - a.y * d.y - a.z * d.z) * hd

/-- Squared length of the projection of `a` off a unit direction `d`. -/
theorem proj_normSq (a d : Vec3) (hd : dotV d d = 1) :
    normSqV (vsub a (smulV (dotV a d) d)) = dotV a a - (dotV a d) ^ 2 := by
  simp only [dotV, normSqV, vsub, smulV] at hd ⊢
  linear_combination ((a.x * d.x + a.y * d.y + a.z * d.z) ^ 2) * hd

/-- Lagrange identity for the cross product. -/
theorem lagrange (a b : Vec3) :
    normSqV (crossV a b) = dotV a a * dotV b b - (dotV a b) ^ 2 := by
  simp only [dotV, normSqV, crossV]
  ring

/-- The BAC-CAB expansion of a left-nested triple cross product. -/
theorem cross_cross (a b c : Vec3) :
    crossV (crossV a b) c = vsub (smulV (dotV a c) b) (smulV (dotV b c) a) := by
  apply vec3_eq <;> simp [crossV, vsub, smulV, dotV] <;> ring

theorem crossV_smul_right (c : ℝ) (a b : Vec3) :
    crossV a (smulV c b) = smulV c (crossV a b) := by
  apply vec3_eq <;> simp [crossV, smulV] <;> ring

theorem vsub_vadd_cancel (a b : Vec3) : vsub (vadd a b) a = b := by
  apply vec3_eq <;> simp [vsub, vadd]

theorem vadd_vsub_vadd (a x y : Vec3) : vsub (vadd a x) (vadd a y) = vsub x y := by
  apply vec3_eq <;> simp [vsub, vadd]

/-- `applyQuaternion` with an axis-angle-shaped quaternion, expanded into the
rotation form v + 2cs (k x v) + 2 s^2 (k x (k x v)). -/
theorem applyQ_expand (v k : Vec3) (s c : ℝ) :
    applyQuaternion v ⟨k.x * s, k.y * s, k.z * s, c⟩ =
      vadd v (vadd (smulV (2 * c * s) (crossV k v))
        (smulV (2 * s ^ 2) (crossV k (crossV k v)))) := by
  apply vec3_eq <;> simp [applyQuaternion, vadd, smulV, crossV] <;> ring

/-- Rotating `u • d` by angle `A` about the axis `d x p`, for orthonormal
`d`, `p`, lands at `u cos A • d + u sin A • p`. -/
theorem applyQ_axis (d p : Vec3) (u A : ℝ)
    (hd : dotV d d = 1) (hp : dotV p p = 1) (hdp : dotV d p = 0) :
    applyQuaternion (smulV u d) (qSetFromAxisAngle (crossV d p) A) =
      vadd (smulV (u * Real.cos A) d) (smulV (u * Real.sin A) p) := by
  have hq : qSetFromAxisAngle (crossV d p) A =
      ⟨(crossV d p).x * Real.sin (A / 2), (crossV d p).y * Real.sin (A / 2),
        (crossV d p).z * Real.sin (A / 2), Real.cos (A / 2)⟩ := rfl
  rw [hq, applyQ_expand]
  have hkv : crossV (crossV d p) (smulV u d) = smulV u p := by
    rw [crossV_smul_right, cross_cross, hd, dotV_comm p d, hdp]
    apply vec3_eq <;> simp [smulV, vsub]
  have hkkv : crossV (crossV d p) (smulV u p) = smulV (-u) d := by
    rw [crossV_smul_right, cross_cross, hdp, hp]
    apply vec3_eq <;> simp [smulV, vsub]
  rw [hkv, hkkv]
  have hc : Real.cos A = 1 - 2 * Real.sin (A / 2) ^ 2 := by
    have h := Real.cos_two_mul (A / 2)
    have h2 : 2 * (A / 2) = A := by ring
    rw [h2] at h
    have hpy := Real.sin_sq_add_cos_sq (A / 2)
    linarith
  have hs : Real.sin A = 2 * Real.sin (A / 2) * Real.cos (A / 2) := by
    have h := Real.sin_two_mul (A / 2)
    have h2 : 2 * (A / 2) = A := by ring
    rw [h2] at h
    exact h
  apply vec3_eq <;> simp [vadd, smulV] <;> rw [hc, hs] <;> ring

/-- Squared length of a linear combination of an orthonormal pair. -/
theorem dot_combo (a b : ℝ) (d p : Vec3)
    (hd : dotV d d = 1) (hp : dotV p p = 1) (hdp : dotV d p = 0) :
    dotV (vadd (smulV a d) (smulV b p)) (vadd (smulV a d) (smulV b p)) =
      a ^ 2 + b ^ 2 := by
  simp only [dotV, vadd, smulV] at hd hp hdp ⊢
  linear_combination (a ^ 2) * hd + (b ^ 2) * hp + (2 * a * b) * hdp

theorem vsub_combo (c a b : ℝ) (d p : Vec3) :
    vsub (smulV c d) (vadd (smulV a d) (smulV b p)) =
      vadd (smulV (c - a) d) (smulV (-b) p) := by
  apply vec3_eq <;> simp [vsub, vadd, smulV] <;> ring

theorem ikTargetDir_unit (sh target : Vec3) (hD : 0 < normV (vsub target sh)) :
    dotV (ikTargetDir sh target) (ikTargetDir sh target) = 1 :=
  normalizeV_dot_self _ hD

/-- `ikPoleDir` with its let bindings zeta-reduced. -/
theorem ikPoleDir_red (sh target pole : Vec3) :
    ikPoleDir sh target pole = normalizeV
      (if normSqV (vsub (vsub pole sh)
          (smulV (dotV (vsub pole sh) (ikTargetDir sh target)) (ikTargetDir sh target))) < 0.0001
      then
        vsub (if |(ikTargetDir sh target).y| > 0.99 then (⟨1, 0, 0⟩ : Vec3) else ⟨0, 1, 0⟩)
          (smulV (dotV (if |(ikTargetDir sh target).y| > 0.99 then (⟨1, 0, 0⟩ : Vec3) else ⟨0, 1, 0⟩)
            (ikTargetDir sh target)) (ikTargetDir sh target))
      else vsub (vsub pole sh)
        (smulV (dotV (vsub pole sh) (ikTargetDir sh target)) (ikTargetDir sh target))) := rfl

/-- The computed pole direction is a unit vector perpendicular to the target
direction, in all branches of the degenerate-pole fallback. -/
theorem ikPoleDir_spec (sh target pole : Vec3) (hD : 0 < normV (vsub target sh)) :
    dotV (ikPoleDir sh target pole) (ikPoleDir sh target pole) = 1 ∧
      dotV (ikTargetDir sh target) (ikPoleDir sh target pole) = 0 := by
  have hd : dotV (ikTargetDir sh target) (ikTargetDir sh target) = 1 :=
    normalizeV_dot_self _ hD
  have main : ∀ w : Vec3, 0 < normSqV w → dotV w (ikTargetDir sh target) = 0 →
      dotV (normalizeV w) (normalizeV w) = 1 ∧
        dotV (ikTargetDir sh target) (normalizeV w) = 0 := by
    intro w hpos hperp
    have hn : 0 < normV w := normV_pos_of_normSq w hpos
    exact ⟨normalizeV_dot_self w hn,
      normalizeV_perp _ w hn.ne' (by rw [dotV_comm]; exact hperp)⟩
  rw [ikPoleDir_red]
  by_cases hfb : normSqV (vsub (vsub pole sh)
      (smulV (dotV (vsub pole sh) (ikTargetDir sh target)) (ikTargetDir sh target))) < 0.0001
  · rw [if_pos hfb]
    by_cases hy : |(ikTargetDir sh target).y| > 0.99
    · rw [if_pos hy]
      apply main
      · rw [proj_normSq _ _ hd]
        have h2 : dotV (⟨1, 0, 0⟩ : Vec3) (ikTargetDir sh target) = (ikTargetDir sh target).x := by
          simp [dotV]
        have h1 : dotV (⟨1, 0, 0⟩ : Vec3) (⟨1, 0, 0⟩ : Vec3) = 1 := by norm_num [dotV]
        rw [h2, h1]
        have habs : |(ikTargetDir sh target).y| ^ 2 = (ikTargetDir sh target).y ^ 2 := sq_abs _
        simp only [dotV] at hd
        nlinarith [sq_nonneg (ikTargetDir sh target).z]
      · exact proj_perp _ _ hd
    · rw [if_neg hy]
      apply main
      · rw [proj_normSq _ _ hd]
        have h2 : dotV (⟨0, 1, 0⟩ : Vec3) (ikTargetDir sh target) = (ikTargetDir sh target).y := by
          simp [dotV]
        have h1 : dotV (⟨0, 1, 0⟩ : Vec3) (⟨0, 1, 0⟩ : Vec3) = 1 := by norm_num [dotV]
        rw [h2, h1]
        push_neg at hy
        have habs : |(ikTargetDir sh target).y| ^ 2 = (ikTargetDir sh target).y ^ 2 := sq_abs _
        have habs2 : (0:ℝ) ≤ |(ikTargetDir sh target).y| := abs_nonneg _
        nlinarith
      · exact proj_perp _ _ hd
  · rw [if_neg hfb]
    push_neg at hfb
    apply main
    · linarith
    · exact proj_perp _ _ hd

/-- With both bones at least 0.001 long, the clamped target distance lies
strictly inside the triangle-validity band. -/
theorem ikClampedDist_bounds (sh target : Vec3) (u f : ℝ)
    (hu : 0.001 ≤ u) (hf : 0.001 ≤ f) :
    |u - f| < ikClampedDist sh target u f ∧
      ikClampedDist sh target u f < u + f ∧ 0 < ikClampedDist sh target u f := by
  unfold ikClampedDist clampR
  have hminmax : |u - f| + 0.001 ≤ u + f - 0.001 := by
    rcases abs_cases (u - f) with ⟨h1, _⟩ | ⟨h1, _⟩ <;> rw [h1] <;> linarith
  refine ⟨?_, ?_, ?_⟩
  · have h1 : |u - f| + 0.001 ≤
        max (|u - f| + 0.001) (min (u + f - 0.001) (normV (vsub target sh))) :=
      le_max_left _ _
    linarith
  · have h1 : max (|u - f| + 0.001) (min (u + f - 0.001) (normV (vsub target sh))) ≤
        u + f - 0.001 :=
      max_le hminmax (min_le_left _ _)
    linarith
  · have h1 : |u - f| + 0.001 ≤
        max (|u - f| + 0.001) (min (u + f - 0.001) (normV (vsub target sh))) :=
      le_max_left _ _
    have h2 : (0:ℝ) ≤ |u - f| := abs_nonneg _
    linarith

/-- The law-of-cosines ratio is already in [-1, 1] (so its clamp is the
identity), the bend angle's cosine equals it, and the squared sine is its
squared complement. -/
theorem ikShoulderAngle_spec (sh target : Vec3) (u f : ℝ)
    (hu : 0.001 ≤ u) (hf : 0.001 ≤ f) :
    Real.cos (ikShoulderAngle sh target u f) =
      (u ^ 2 + ikClampedDist sh target u f ^ 2 - f ^ 2) /
        (2 * u * ikClampedDist sh target u f) ∧
      Real.sin (ikShoulderAngle sh target u f) ^ 2 =
        1 - ((u ^ 2 + ikClampedDist sh target u f ^ 2 - f ^ 2) /
          (2 * u * ikClampedDist sh target u f)) ^ 2 := by
  obtain ⟨hlo, hhi, hpos⟩ := ikClampedDist_bounds sh target u f hu hf
  have hu0 : (0:ℝ) < u := by linarith
  have hf0 : (0:ℝ) < f := by linarith
  have habs1 : u - f ≤ |u - f| := le_abs_self _
  have habs2 : f - u ≤ |u - f| := by rw [abs_sub_comm]; exact le_abs_self _
  have h2ud : (0:ℝ) < 2 * u * ikClampedDist sh target u f := by positivity
  have hx1 : (u ^ 2 + ikClampedDist sh target u f ^ 2 - f ^ 2) /
      (2 * u * ikClampedDist sh target u f) ≤ 1 := by
    rw [div_le_one h2ud]
    nlinarith
  have hxm1 : (-1:ℝ) ≤ (u ^ 2 + ikClampedDist sh target u f ^ 2 - f ^ 2) /
      (2 * u * ikClampedDist sh target u f) := by
    rw [le_div_iff₀ h2ud]
    nlinarith
  have hclamp : clampR ((u ^ 2 + ikClampedDist sh target u f ^ 2 - f ^ 2) /
      (2 * u * ikClampedDist sh target u f)) (-1) 1 =
      (u ^ 2 + ikClampedDist sh target u f ^ 2 - f ^ 2) /
        (2 * u * ikClampedDist sh target u f) := by
    unfold clampR
    rw [min_eq_right hx1]
    exact max_eq_right hxm1
  have hA : ikShoulderAngle sh target u f =
      Real.arccos ((u ^ 2 + ikClampedDist sh target u f ^ 2 - f ^ 2) /
        (2 * u * ikClampedDist sh target u f)) := by
    unfold ikShoulderAngle
    rw [hclamp]
  refine ⟨?_, ?_⟩
  · rw [hA, Real.cos_arccos hxm1 hx1]
  · rw [hA, Real.sin_arccos, Real.sq_sqrt]
    nlinarith

/-- The elbow offset from the shoulder decomposes as `u cos A` along the
target direction plus `u sin A` along the pole direction. -/
theorem ikElbowPos_eq (sh target pole : Vec3) (u f : ℝ)
    (hD : 0 < normV (vsub target sh)) :
    ikElbowPos sh target pole u f =
      vadd sh (vadd
        (smulV (u * Real.cos (ikShoulderAngle sh target u f)) (ikTargetDir sh target))
        (smulV (u * Real.sin (ikShoulderAngle sh target u f)) (ikPoleDir sh target pole))) := by
  obtain ⟨hp, hdp⟩ := ikPoleDir_spec sh target pole hD
  have hd := ikTargetDir_unit sh target hD
  have hlag : normSqV (crossV (ikTargetDir sh target) (ikPoleDir sh target pole)) = 1 := by
    rw [lagrange, hd, hp, hdp]
    ring
  have hnorm : normV (crossV (ikTargetDir sh target) (ikPoleDir sh target pole)) = 1 := by
    rw [normV_eq_sqrt_normSq, hlag, Real.sqrt_one]
  have hax : normalizeV (crossV (ikTargetDir sh target) (ikPoleDir sh target pole)) =
      crossV (ikTargetDir sh target) (ikPoleDir sh target pole) :=
    normalizeV_of_norm_one _ hnorm
  unfold ikElbowPos
  rw [hax, applyQ_axis _ _ _ _ hd hp hdp]

/-- C2 (amended): for bones at least 0.001 long and a target distinct from
the shoulder whose distance lies in [|u-f|, u+f], the elbow computed by
solveTwoBoneIK is exactly upperLength from the shoulder and exactly
forearmLength from the clamped target (the reachable point the solver aims
at); over the reals the triangle identities are exact.  (The original claim,
with u, f merely positive and target = shoulder allowed, is refuted by
ik_triangle_validity_refuted.) -/
theorem ik_triangle_validity (sh pole target : Vec3) (pq : Quat) (u f : ℝ)
    (hu : 0.001 ≤ u) (hf : 0.001 ≤ f)
    (hD : 0 < normV (vsub target sh))
    (_hlo : |u - f| ≤ normV (vsub target sh))
    (_hhi : normV (vsub target sh) ≤ u + f) :
    normV (vsub (solveTwoBoneIK ⟨sh, pq, u, f⟩ target pole).elbowPos sh) = u ∧
      normV (vsub (ikClampedTarget sh target u f)
        (solveTwoBoneIK ⟨sh, pq, u, f⟩ target pole).elbowPos) = f := by
  have hsolve : (solveTwoBoneIK ⟨sh, pq, u, f⟩ target pole).elbowPos =
      ikElbowPos sh target pole u f := rfl
  obtain ⟨hp, hdp⟩ := ikPoleDir_spec sh target pole hD
  have hd := ikTargetDir_unit sh target hD
  obtain ⟨hcos, hsin⟩ := ikShoulderAngle_spec sh target u f hu hf
  obtain ⟨_, _, hdpos⟩ := ikClampedDist_bounds sh target u f hu hf
  have hu0 : (0:ℝ) < u := by linarith
  have hf0 : (0:ℝ) < f := by linarith
  rw [hsolve, ikElbowPos_eq sh target pole u f hD]
  constructor
  · rw [vsub_vadd_cancel, normV_eq_sqrt_dot, dot_combo _ _ _ _ hd hp hdp]
    have hsum : (u * Real.cos (ikShoulderAngle sh target u f)) ^ 2 +
        (u * Real.sin (ikShoulderAngle sh target u f)) ^ 2 = u ^ 2 := by
      have hpy := Real.sin_sq_add_cos_sq (ikShoulderAngle sh target u f)
      linear_combination (u ^ 2) * hpy
    rw [hsum, Real.sqrt_sq hu0.le]
  · have hct : ikClampedTarget sh target u f =
        vadd sh (smulV (ikClampedDist sh target u f) (ikTargetDir sh target)) := rfl
    rw [hct, vadd_vsub_vadd, vsub_combo, normV_eq_sqrt_dot, dot_combo _ _ _ _ hd hp hdp]
    have hx : 2 * u * ikClampedDist sh target u f *
        ((u ^ 2 + ikClampedDist sh target u f ^ 2 - f ^ 2) /
          (2 * u * ikClampedDist sh target u f)) =
        u ^ 2 + ikClampedDist sh target u f ^ 2 - f ^ 2 := by
      field_simp
    have hval : (ikClampedDist sh target u f -
        u * Real.cos (ikShoulderAngle sh target u f)) ^ 2 +
        (-(u * Real.sin (ikShoulderAngle sh target u f))) ^ 2 = f ^ 2 := by
      rw [hcos]
      linear_combination (u ^ 2) * hsin - hx
    rw [hval, Real.sqrt_sq hf0.le]

/-- C2: counterexample to the claim as stated.  With upperLen = forearmLen =
0.0004 (positive) and the target exactly at the shoulder, the target
distance 0 lies in [|u-f|, u+f] = [0, 0.0008], yet the computed elbow
coincides with the shoulder (the zero shoulder-to-target vector normalizes
to zero under THREE's `length() || 1` guard), so |elbow - shoulder| = 0,
which is not upperLen = 0.0004 - an error of 100% of the bone length, far
beyond floating tolerance. -/
theorem ik_triangle_validity_refuted :
    ¬ (∀ (sh pole target : Vec3) (pq : Quat) (u f : ℝ),
        0 < u → 0 < f →
        |u - f| ≤ normV (vsub target sh) → normV (vsub target sh) ≤ u + f →
        normV (vsub (solveTwoBoneIK ⟨sh, pq, u, f⟩ target pole).elbowPos sh) = u ∧
          normV (vsub (ikClampedTarget sh target u f)
            (solveTwoBoneIK ⟨sh, pq, u, f⟩ target pole).elbowPos) = f) := by
  intro h
  have hz : vsub (⟨0, 0, 0⟩ : Vec3) (⟨0, 0, 0⟩ : Vec3) = ⟨0, 0, 0⟩ := by
    apply vec3_eq <;> simp [vsub]
  have hnz : normV (⟨0, 0, 0⟩ : Vec3) = 0 := by
    simp [normV]
  have hdir : ikTargetDir ⟨0, 0, 0⟩ ⟨0, 0, 0⟩ = ⟨0, 0, 0⟩ := by
    unfold ikTargetDir normalizeV
    rw [hz, if_pos hnz]
  have hEP : (solveTwoBoneIK ⟨⟨0, 0, 0⟩, qId, 0.0004, 0.0004⟩ ⟨0, 0, 0⟩ ⟨1, 0, 0⟩).elbowPos =
      ⟨0, 0, 0⟩ := by
    have h1 : (solveTwoBoneIK ⟨⟨0, 0, 0⟩, qId, 0.0004, 0.0004⟩ ⟨0, 0, 0⟩ ⟨1, 0, 0⟩).elbowPos =
        ikElbowPos ⟨0, 0, 0⟩ ⟨0, 0, 0⟩ ⟨1, 0, 0⟩ 0.0004 0.0004 := rfl
    rw [h1]
    unfold ikElbowPos
    rw [hdir]
    apply vec3_eq <;> simp [applyQuaternion, smulV, vadd]
  have hc := h ⟨0, 0, 0⟩ ⟨1, 0, 0⟩ ⟨0, 0, 0⟩ qId 0.0004 0.0004 (by norm_num) (by norm_num)
    (by rw [hz, hnz]; norm_num) (by rw [hz, hnz]; norm_num)
  have h1 := hc.1
  rw [hEP, hz, hnz] at h1
  norm_num at h1

theorem ik_triangle_validity_witness :
    (0.001 : ℝ) ≤ 1 ∧ 0 < normV (vsub (⟨0, 0, 1⟩ : Vec3) ⟨0, 0, 0⟩) ∧
      |(1:ℝ) - 1| ≤ normV (vsub (⟨0, 0, 1⟩ : Vec3) ⟨0, 0, 0⟩) ∧
      normV (vsub (⟨0, 0, 1⟩ : Vec3) ⟨0, 0, 0⟩) ≤ 1 + 1 ∧
      (normV (vsub (solveTwoBoneIK ⟨⟨0, 0, 0⟩, qId, 1, 1⟩ ⟨0, 0, 1⟩ ⟨0, 1, 0⟩).elbowPos
          ⟨0, 0, 0⟩) = 1 ∧
        normV (vsub (ikClampedTarget ⟨0, 0, 0⟩ ⟨0, 0, 1⟩ 1 1)
          (solveTwoBoneIK ⟨⟨0, 0, 0⟩, qId, 1, 1⟩ ⟨0, 0, 1⟩ ⟨0, 1, 0⟩).elbowPos) = 1) := by
  have hn : normV (vsub (⟨0, 0, 1⟩ : Vec3) (⟨0, 0, 0⟩ : Vec3)) = 1 := by
    simp [normV, vsub]
  refine ⟨by norm_num, by rw [hn]; norm_num, by rw [hn]; norm_num, by rw [hn]; norm_num,
    ik_triangle_validity ⟨0, 0, 0⟩ ⟨0, 1, 0⟩ ⟨0, 0, 1⟩ qId 1 1 (by norm_num) (by norm_num)
      (by rw [hn]; norm_num) (by rw [hn]; norm_num) (by rw [hn]; norm_num)⟩

theorem smulV_smulV (a b : ℝ) (v : Vec3) : smulV a (smulV b v) = smulV (a * b) v := by
  apply vec3_eq <;> simp [smulV] <;> ring

theorem solve_shoulderQuat_red (arm : IKArm) (t p : Vec3) :
    (solveTwoBoneIK arm t p).shoulderQuat =
      qSetFromUnitVectors ⟨0, -1, 0⟩
        (applyQuaternion
          (normalizeV (vsub (ikElbowPos arm.shoulderWorld t p arm.upperLength arm.forearmLength)
            arm.shoulderWorld))
          (qConj arm.parentQuat)) := rfl

theorem solve_elbowPos_red (arm : IKArm) (t p : Vec3) :
    (solveTwoBoneIK arm t p).elbowPos =
      ikElbowPos arm.shoulderWorld t p arm.upperLength arm.forearmLength := rfl

theorem solve_elbowQuat_red (arm : IKArm) (t p : Vec3) :
    (solveTwoBoneIK arm t p).elbowQuat =
      qSetFromUnitVectors ⟨0, -1, 0⟩
        (applyQuaternion
          (normalizeV (vsub t
            (ikElbowPos arm.shoulderWorld t p arm.upperLength arm.forearmLength)))
          (qConj (qMul arm.parentQuat
            (qSetFromUnitVectors ⟨0, -1, 0⟩
              (applyQuaternion
                (normalizeV (vsub
                  (ikElbowPos arm.shoulderWorld t p arm.upperLength arm.forearmLength)
                  arm.shoulderWorld))
                (qConj arm.parentQuat)))))) := rfl

/-- A target at positive distance `E` straight along a unit direction `v`
from the shoulder has target direction `v`. -/
theorem ikTargetDir_along (sh v : Vec3) (E : ℝ) (hv : normV v = 1) (hE : 0 < E) :
    ikTargetDir sh (vadd sh (smulV E v)) = v := by
  unfold ikTargetDir
  rw [vsub_vadd_cancel]
  have hn : normV (smulV E v) = E := by
    rw [normV_smul, hv, abs_of_pos hE, mul_one]
  rw [normalizeV_eq _ (by rw [hn]; exact hE.ne'), hn, smulV_smulV]
  rw [one_div, inv_mul_cancel₀ hE.ne', smulV_one]

/-- Any target at distance at least `u + f` along a unit direction clamps to
the same distance, the top of the reachable band. -/
theorem ikClampedDist_along (sh v : Vec3) (u f E : ℝ) (hv : normV v = 1)
    (hE : 0 < E) (huf : u + f ≤ E) :
    ikClampedDist sh (vadd sh (smulV E v)) u f =
      max (|u - f| + 0.001) (u + f - 0.001) := by
  unfold ikClampedDist clampR
  rw [vsub_vadd_cancel]
  have hn : normV (smulV E v) = E := by
    rw [normV_smul, hv, abs_of_pos hE, mul_one]
  rw [hn, min_eq_left (by linarith)]

/-- C7 (amended): for a target beyond maximum reach, the solver clamps and
produces the same shoulder orientation and the same elbow position as for a
target at the maximum reachable distance along the same direction, with no
error path (solveTwoBoneIK is total).  The elbow orientation, however, can
differ, because the elbow-to-wrist direction is taken from the unclamped
target: see ik_clamping_refuted. -/
theorem ik_clamping (sh pole v : Vec3) (pq : Quat) (u f D : ℝ)
    (hv : normV v = 1) (hu : 0 < u) (hf : 0 < f) (hD : u + f < D) :
    (solveTwoBoneIK ⟨sh, pq, u, f⟩ (vadd sh (smulV D v)) pole).shoulderQuat =
      (solveTwoBoneIK ⟨sh, pq, u, f⟩ (vadd sh (smulV (u + f) v)) pole).shoulderQuat ∧
    (solveTwoBoneIK ⟨sh, pq, u, f⟩ (vadd sh (smulV D v)) pole).elbowPos =
      (solveTwoBoneIK ⟨sh, pq, u, f⟩ (vadd sh (smulV (u + f) v)) pole).elbowPos := by
  have huf : 0 < u + f := by linarith
  have hD0 : 0 < D := by linarith
  have hang : ikShoulderAngle sh (vadd sh (smulV D v)) u f =
      ikShoulderAngle sh (vadd sh (smulV (u + f) v)) u f := by
    unfold ikShoulderAngle
    rw [ikClampedDist_along sh v u f D hv hD0 (le_of_lt hD),
      ikClampedDist_along sh v u f (u + f) hv huf le_rfl]
  have hpole : ikPoleDir sh (vadd sh (smulV D v)) pole =
      ikPoleDir sh (vadd sh (smulV (u + f) v)) pole := by
    rw [ikPoleDir_red, ikPoleDir_red, ikTargetDir_along sh v D hv hD0,
      ikTargetDir_along sh v (u + f) hv huf]
  have hep : ikElbowPos sh (vadd sh (smulV D v)) pole u f =
      ikElbowPos sh (vadd sh (smulV (u + f) v)) pole u f := by
    unfold ikElbowPos
    rw [hang, hpole, ikTargetDir_along sh v D hv hD0,
      ikTargetDir_along sh v (u + f) hv huf]
  constructor
  · rw [solve_shoulderQuat_red, solve_shoulderQuat_red]
    rw [show (IKArm.mk sh pq u f).shoulderWorld = sh from rfl,
      show (IKArm.mk sh pq u f).upperLength = u from rfl,
      show (IKArm.mk sh pq u f).forearmLength = f from rfl, hep]
  · rw [solve_elbowPos_red, solve_elbowPos_red]
    rw [show (IKArm.mk sh pq u f).shoulderWorld = sh from rfl,
      show (IKArm.mk sh pq u f).upperLength = u from rfl,
      show (IKArm.mk sh pq u f).forearmLength = f from rfl, hep]

theorem ik_clamping_witness :
    normV (⟨0, 0, 1⟩ : Vec3) = 1 ∧ (0:ℝ) < 1 ∧ (1:ℝ) + 1 < 3 ∧
      ((solveTwoBoneIK ⟨⟨0, 0, 0⟩, qId, 1, 1⟩
          (vadd ⟨0, 0, 0⟩ (smulV 3 ⟨0, 0, 1⟩)) ⟨0, 1, 0⟩).shoulderQuat =
        (solveTwoBoneIK ⟨⟨0, 0, 0⟩, qId, 1, 1⟩
          (vadd ⟨0, 0, 0⟩ (smulV (1 + 1) ⟨0, 0, 1⟩)) ⟨0, 1, 0⟩).shoulderQuat ∧
      (solveTwoBoneIK ⟨⟨0, 0, 0⟩, qId, 1, 1⟩
          (vadd ⟨0, 0, 0⟩ (smulV 3 ⟨0, 0, 1⟩)) ⟨0, 1, 0⟩).elbowPos =
        (solveTwoBoneIK ⟨⟨0, 0, 0⟩, qId, 1, 1⟩
          (vadd ⟨0, 0, 0⟩ (smulV (1 + 1) ⟨0, 0, 1⟩)) ⟨0, 1, 0⟩).elbowPos) := by
  have hv : normV (⟨0, 0, 1⟩ : Vec3) = 1 := by
    simp [normV]
  exact ⟨hv, by norm_num, by norm_num,
    ik_clamping ⟨0, 0, 0⟩ ⟨0, 1, 0⟩ ⟨0, 0, 1⟩ qId 1 1 3 hv (by norm_num) (by norm_num)
      (by norm_num)⟩

/-! Helpers for evaluating the solver's orientation outputs concretely. -/

theorem applyQ_id (v : Vec3) : applyQuaternion v (qConj qId) = v := by
  apply vec3_eq <;> simp [applyQuaternion, qConj, qId]

theorem qMul_id_left (q : Quat) : qMul qId q = q := by
  apply quat_eq <;> simp [qMul, qId]

/-- Rotation of a vector in the x = 0 plane by a quaternion about the x
axis, in components. -/
theorem applyQ_xaxis (b a y z : ℝ) :
    applyQuaternion ⟨0, y, z⟩ ⟨b, 0, 0, a⟩ =
      ⟨0, (1 - 2 * b ^ 2) * y - 2 * a * b * z, 2 * a * b * y + (1 - 2 * b ^ 2) * z⟩ := by
  apply vec3_eq <;> simp [applyQuaternion] <;> ring

theorem normalizeV_yz (y z : ℝ) (h : 0 < y ^ 2 + z ^ 2) :
    normalizeV ⟨0, y, z⟩ =
      ⟨0, y / Real.sqrt (y ^ 2 + z ^ 2), z / Real.sqrt (y ^ 2 + z ^ 2)⟩ := by
  have hn : normV ⟨0, y, z⟩ = Real.sqrt (y ^ 2 + z ^ 2) := by
    unfold normV
    rw [show (0:ℝ) ^ 2 + y ^ 2 + z ^ 2 = y ^ 2 + z ^ 2 from by ring]
  have hpos : 0 < normV ⟨0, y, z⟩ := by
    rw [hn]
    exact Real.sqrt_pos.mpr h
  rw [normalizeV_eq _ hpos.ne', hn]
  apply vec3_eq <;> simp [smulV] <;> ring

theorem qNormalize_x (b w : ℝ) (h : 0 < b ^ 2 + w ^ 2) :
    qNormalize ⟨b, 0, 0, w⟩ =
      ⟨b / Real.sqrt (b ^ 2 + w ^ 2), 0, 0, w / Real.sqrt (b ^ 2 + w ^ 2)⟩ := by
  have hn : qNorm ⟨b, 0, 0, w⟩ = Real.sqrt (b ^ 2 + w ^ 2) := by
    unfold qNorm
    rw [show b ^ 2 + (0:ℝ) ^ 2 + 0 ^ 2 + w ^ 2 = b ^ 2 + w ^ 2 from by ring]
  have hpos : (0:ℝ) < qNorm ⟨b, 0, 0, w⟩ := by
    rw [hn]
    exact Real.sqrt_pos.mpr h
  unfold qNormalize
  rw [if_neg hpos.ne', hn]
  apply quat_eq <;> simp

/-- `qSetFromUnitVectors` with its let bindings zeta-reduced. -/
theorem qSetFromUnitVectors_red (a b : Vec3) :
    qSetFromUnitVectors a b =
      if dotV a b + 1 < nEPSILON then
        if |a.x| > |a.z| then qNormalize ⟨-a.y, a.x, 0, 0⟩
        else qNormalize ⟨0, -a.z, a.y, 0⟩
      else qNormalize ⟨(crossV a b).x, (crossV a b).y, (crossV a b).z, dotV a b + 1⟩ := rfl

/-- Aiming the rest direction (0,-1,0) at a vector in the x = 0 plane, away
from the antipodal fallback. -/
theorem qSetFromUnitVectors_down (y z : ℝ) (h : ¬ (1 - y < nEPSILON)) :
    qSetFromUnitVectors ⟨0, -1, 0⟩ ⟨0, y, z⟩ = qNormalize ⟨-z, 0, 0, 1 - y⟩ := by
  rw [qSetFromUnitVectors_red]
  have hd : dotV (⟨0, -1, 0⟩ : Vec3) (⟨0, y, z⟩ : Vec3) + 1 = 1 - y := by
    simp [dotV]
    ring
  rw [hd, if_neg h]
  congr 1
  apply quat_eq <;> simp [crossV]

theorem ikShoulderAngle_sin_nonneg (sh target : Vec3) (u f : ℝ) :
    0 ≤ Real.sin (ikShoulderAngle sh target u f) := by
  unfold ikShoulderAngle
  rw [Real.sin_arccos]
  exact Real.sqrt_nonneg _

/-! Concrete solver run used to separate the two joint orientations: shoulder
at the origin, identity parent rotation, unit bones, pole (0,1,0), and two
targets along (0,0,1) at distances 3 and 2 = upperLength + forearmLength. -/

noncomputable def cexA : ℝ :=
  ikShoulderAngle ⟨0, 0, 0⟩ (vadd ⟨0, 0, 0⟩ (smulV 3 ⟨0, 0, 1⟩)) 1 1

theorem cex_v_unit : normV (⟨0, 0, 1⟩ : Vec3) = 1 := by
  simp [normV]

theorem cex_dir1 : ikTargetDir ⟨0, 0, 0⟩ (vadd ⟨0, 0, 0⟩ (smulV 3 ⟨0, 0, 1⟩)) = ⟨0, 0, 1⟩ :=
  ikTargetDir_along _ _ _ cex_v_unit (by norm_num)

theorem cex_dir2 : ikTargetDir ⟨0, 0, 0⟩ (vadd ⟨0, 0, 0⟩ (smulV 2 ⟨0, 0, 1⟩)) = ⟨0, 0, 1⟩ :=
  ikTargetDir_along _ _ _ cex_v_unit (by norm_num)

theorem cexA_cos : Real.cos cexA = 0.9995 := by
  have h := (ikShoulderAngle_spec ⟨0, 0, 0⟩ (vadd ⟨0, 0, 0⟩ (smulV 3 ⟨0, 0, 1⟩)) 1 1
    (by norm_num) (by norm_num)).1
  have hd : ikClampedDist ⟨0, 0, 0⟩ (vadd ⟨0, 0, 0⟩ (smulV 3 ⟨0, 0, 1⟩)) 1 1 =
      max (|(1:ℝ) - 1| + 0.001) (1 + 1 - 0.001) :=
    ikClampedDist_along _ _ _ _ _ cex_v_unit (by norm_num) (by norm_num)
  rw [hd, show max (|(1:ℝ) - 1| + 0.001) (1 + 1 - 0.001) = 1.999 from by norm_num] at h
  unfold cexA
  rw [h]
  norm_num

theorem cexA2 : ikShoulderAngle ⟨0, 0, 0⟩ (vadd ⟨0, 0, 0⟩ (smulV 2 ⟨0, 0, 1⟩)) 1 1 = cexA := by
  unfold cexA ikShoulderAngle
  rw [ikClampedDist_along _ _ _ _ _ cex_v_unit (by norm_num : (0:ℝ) < 2) (by norm_num),
    ikClampedDist_along _ _ _ _ _ cex_v_unit (by norm_num : (0:ℝ) < 3) (by norm_num)]

theorem cex_pole1 : ikPoleDir ⟨0, 0, 0⟩ (vadd ⟨0, 0, 0⟩ (smulV 3 ⟨0, 0, 1⟩)) ⟨0, 1, 0⟩ =
    ⟨0, 1, 0⟩ := by
  rw [ikPoleDir_red, cex_dir1]
  have h1 : vsub (⟨0, 1, 0⟩ : Vec3) (⟨0, 0, 0⟩ : Vec3) = ⟨0, 1, 0⟩ := by
    apply vec3_eq <;> simp [vsub]
  rw [h1]
  have h2 : dotV (⟨0, 1, 0⟩ : Vec3) (⟨0, 0, 1⟩ : Vec3) = 0 := by
    simp [dotV]
  rw [h2]
  have h3 : vsub (⟨0, 1, 0⟩ : Vec3) (smulV 0 ⟨0, 0, 1⟩) = ⟨0, 1, 0⟩ := by
    apply vec3_eq <;> simp [vsub, smulV]
  rw [h3]
  rw [if_neg (by norm_num [normSqV] : ¬ (normSqV (⟨0, 1, 0⟩ : Vec3) < 0.0001))]
  exact normalizeV_of_norm_one _ (by simp [normV])

theorem cex_pole2 : ikPoleDir ⟨0, 0, 0⟩ (vadd ⟨0, 0, 0⟩ (smulV 2 ⟨0, 0, 1⟩)) ⟨0, 1, 0⟩ =
    ⟨0, 1, 0⟩ := by
  rw [ikPoleDir_red, cex_dir2]
  have h1 : vsub (⟨0, 1, 0⟩ : Vec3) (⟨0, 0, 0⟩ : Vec3) = ⟨0, 1, 0⟩ := by
    apply vec3_eq <;> simp [vsub]
  rw [h1]
  have h2 : dotV (⟨0, 1, 0⟩ : Vec3) (⟨0, 0, 1⟩ : Vec3) = 0 := by
    simp [dotV]
  rw [h2]
  have h3 : vsub (⟨0, 1, 0⟩ : Vec3) (smulV 0 ⟨0, 0, 1⟩) = ⟨0, 1, 0⟩ := by
    apply vec3_eq <;> simp [vsub, smulV]
  rw [h3]
  rw [if_neg (by norm_num [normSqV] : ¬ (normSqV (⟨0, 1, 0⟩ : Vec3) < 0.0001))]
  exact normalizeV_of_norm_one _ (by simp [normV])

theorem cex_ep1 : ikElbowPos ⟨0, 0, 0⟩ (vadd ⟨0, 0, 0⟩ (smulV 3 ⟨0, 0, 1⟩)) ⟨0, 1, 0⟩ 1 1 =
    ⟨0, Real.sin cexA, Real.cos cexA⟩ := by
  have hD : 0 < normV (vsub (vadd (⟨0, 0, 0⟩ : Vec3) (smulV 3 ⟨0, 0, 1⟩)) ⟨0, 0, 0⟩) := by
    rw [vsub_vadd_cancel, normV_smul, cex_v_unit]
    norm_num
  rw [ikElbowPos_eq _ _ _ _ _ hD, cex_dir1, cex_pole1]
  unfold cexA
  apply vec3_eq <;> simp [vadd, smulV]

theorem cex_ep2 : ikElbowPos ⟨0, 0, 0⟩ (vadd ⟨0, 0, 0⟩ (smulV 2 ⟨0, 0, 1⟩)) ⟨0, 1, 0⟩ 1 1 =
    ⟨0, Real.sin cexA, Real.cos cexA⟩ := by
  have hD : 0 < normV (vsub (vadd (⟨0, 0, 0⟩ : Vec3) (smulV 2 ⟨0, 0, 1⟩)) ⟨0, 0, 0⟩) := by
    rw [vsub_vadd_cancel, normV_smul, cex_v_unit]
    norm_num
  rw [ikElbowPos_eq _ _ _ _ _ hD, cex_dir2, cex_pole2, cexA2]
  apply vec3_eq <;> simp [vadd, smulV]

theorem cex_sin_sq : Real.sin cexA ^ 2 = 0.00099975 := by
  have hpy := Real.sin_sq_add_cos_sq cexA
  rw [cexA_cos] at hpy
  norm_num at hpy
  linarith

theorem cex_sin_nonneg : 0 ≤ Real.sin cexA := by
  unfold cexA
  exact ikShoulderAngle_sin_nonneg _ _ _ _

theorem cex_sin_pos : 0 < Real.sin cexA := by
  nlinarith [cex_sin_sq, cex_sin_nonneg]

theorem cex_sin_le : Real.sin cexA ≤ 0.04 := by
  nlinarith [cex_sin_sq, cex_sin_nonneg]

/-- Length of the unnormalized shoulder-quaternion output in the run. -/
noncomputable def cexN : ℝ :=
  Real.sqrt ((-Real.cos cexA) ^ 2 + (1 - Real.sin cexA) ^ 2)

theorem cex_cos_sq : Real.cos cexA ^ 2 = 0.99900025 := by
  rw [cexA_cos]
  norm_num

theorem cexN_pos : 0 < cexN := by
  unfold cexN
  apply Real.sqrt_pos.mpr
  nlinarith [cex_cos_sq, sq_nonneg (1 - Real.sin cexA)]

theorem cexN_sq : cexN ^ 2 = 2 * (1 - Real.sin cexA) := by
  unfold cexN
  rw [Real.sq_sqrt (by positivity)]
  have hpy := Real.sin_sq_add_cos_sq cexA
  linear_combination hpy

theorem cex_hb2 : 1 - 2 * (Real.cos cexA / cexN) ^ 2 = -Real.sin cexA := by
  have hN := cexN_sq
  have hsne : (1:ℝ) - Real.sin cexA ≠ 0 := by
    have := cex_sin_le
    intro hh
    linarith
  have h : (Real.cos cexA / cexN) ^ 2 = Real.cos cexA ^ 2 / (2 * (1 - Real.sin cexA)) := by
    rw [div_pow, hN]
  rw [h]
  have hpy := Real.sin_sq_add_cos_sq cexA
  field_simp
  linear_combination (-2 : ℝ) * hpy

theorem cex_hab : 2 * ((1 - Real.sin cexA) / cexN) * (Real.cos cexA / cexN) = Real.cos cexA := by
  have hN := cexN_sq
  have hsne : (1:ℝ) - Real.sin cexA ≠ 0 := by
    have := cex_sin_le
    intro hh
    linarith
  have h : 2 * ((1 - Real.sin cexA) / cexN) * (Real.cos cexA / cexN) =
      2 * (1 - Real.sin cexA) * Real.cos cexA / cexN ^ 2 := by
    ring
  rw [h, hN]
  field_simp

/-- Elbow orientation in the run: for a target at distance E >= 2 along
(0,0,1), the elbow local quaternion normalizes (E sin A / L, 0, 0,
1 - (1 - E cos A)/L) with L the length of (0, -sin A, E - cos A) - it
depends on the raw target distance E, not the clamped one. -/
theorem cex_elbowQuat (E : ℝ) (hE : 2 ≤ E)
    (hep : ikElbowPos ⟨0, 0, 0⟩ (vadd ⟨0, 0, 0⟩ (smulV E ⟨0, 0, 1⟩)) ⟨0, 1, 0⟩ 1 1 =
      ⟨0, Real.sin cexA, Real.cos cexA⟩) :
    (solveTwoBoneIK ⟨⟨0, 0, 0⟩, qId, 1, 1⟩
        (vadd ⟨0, 0, 0⟩ (smulV E ⟨0, 0, 1⟩)) ⟨0, 1, 0⟩).elbowQuat =
      qNormalize ⟨E * Real.sin cexA /
          Real.sqrt ((-Real.sin cexA) ^ 2 + (E - Real.cos cexA) ^ 2), 0, 0,
        1 - (1 - E * Real.cos cexA) /
          Real.sqrt ((-Real.sin cexA) ^ 2 + (E - Real.cos cexA) ^ 2)⟩ := by
  have hs04 := cex_sin_le
  have hs0 := cex_sin_nonneg
  have hc := cexA_cos
  have hpy := Real.sin_sq_add_cos_sq cexA
  rw [solve_elbowQuat_red]
  rw [show (IKArm.mk (⟨0, 0, 0⟩ : Vec3) qId 1 1).shoulderWorld = ⟨0, 0, 0⟩ from rfl,
    show (IKArm.mk (⟨0, 0, 0⟩ : Vec3) qId 1 1).upperLength = 1 from rfl,
    show (IKArm.mk (⟨0, 0, 0⟩ : Vec3) qId 1 1).forearmLength = 1 from rfl,
    show (IKArm.mk (⟨0, 0, 0⟩ : Vec3) qId 1 1).parentQuat = qId from rfl]
  rw [hep]
  have h1 : vsub (⟨0, Real.sin cexA, Real.cos cexA⟩ : Vec3) ⟨0, 0, 0⟩ =
      ⟨0, Real.sin cexA, Real.cos cexA⟩ := by
    apply vec3_eq <;> simp [vsub]
  rw [h1]
  have h2 : normV (⟨0, Real.sin cexA, Real.cos cexA⟩ : Vec3) = 1 := by
    unfold normV
    rw [show (0:ℝ) ^ 2 + Real.sin cexA ^ 2 + Real.cos cexA ^ 2 = 1 from by linarith]
    exact Real.sqrt_one
  rw [normalizeV_of_norm_one _ h2, applyQ_id]
  rw [qSetFromUnitVectors_down (Real.sin cexA) (Real.cos cexA)
    (by rw [not_lt]; unfold nEPSILON; linarith)]
  rw [qMul_id_left]
  have h3 : qNormalize ⟨-Real.cos cexA, 0, 0, 1 - Real.sin cexA⟩ =
      ⟨-Real.cos cexA / cexN, 0, 0, (1 - Real.sin cexA) / cexN⟩ := by
    rw [qNormalize_x (-Real.cos cexA) (1 - Real.sin cexA)
      (by nlinarith [cex_cos_sq, sq_nonneg (1 - Real.sin cexA)])]
    rfl
  rw [h3]
  have h4 : qConj ⟨-Real.cos cexA / cexN, 0, 0, (1 - Real.sin cexA) / cexN⟩ =
      ⟨Real.cos cexA / cexN, 0, 0, (1 - Real.sin cexA) / cexN⟩ := by
    apply quat_eq <;> simp [qConj, neg_div]
  rw [h4]
  have ht : vadd (⟨0, 0, 0⟩ : Vec3) (smulV E ⟨0, 0, 1⟩) = ⟨0, 0, E⟩ := by
    apply vec3_eq <;> simp [vadd, smulV]
  rw [ht]
  have h5 : vsub (⟨0, 0, E⟩ : Vec3) ⟨0, Real.sin cexA, Real.cos cexA⟩ =
      ⟨0, -Real.sin cexA, E - Real.cos cexA⟩ := by
    apply vec3_eq <;> simp [vsub]
  rw [h5]
  have hEc : (1:ℝ) ≤ E - Real.cos cexA := by
    rw [hc]
    linarith
  have hposyz : 0 < (-Real.sin cexA) ^ 2 + (E - Real.cos cexA) ^ 2 := by
    nlinarith
  have hL : 0 < Real.sqrt ((-Real.sin cexA) ^ 2 + (E - Real.cos cexA) ^ 2) :=
    Real.sqrt_pos.mpr hposyz
  have hLne : Real.sqrt ((-Real.sin cexA) ^ 2 + (E - Real.cos cexA) ^ 2) ≠ 0 := hL.ne'
  rw [normalizeV_yz _ _ hposyz]
  rw [applyQ_xaxis (Real.cos cexA / cexN) ((1 - Real.sin cexA) / cexN)]
  rw [cex_hb2, cex_hab]
  have h6 : (⟨0,
      -Real.sin cexA * (-Real.sin cexA /
          Real.sqrt ((-Real.sin cexA) ^ 2 + (E - Real.cos cexA) ^ 2)) -
        Real.cos cexA * ((E - Real.cos cexA) /
          Real.sqrt ((-Real.sin cexA) ^ 2 + (E - Real.cos cexA) ^ 2)),
      Real.cos cexA * (-Real.sin cexA /
          Real.sqrt ((-Real.sin cexA) ^ 2 + (E - Real.cos cexA) ^ 2)) +
        -Real.sin cexA * ((E - Real.cos cexA) /
          Real.sqrt ((-Real.sin cexA) ^ 2 + (E - Real.cos cexA) ^ 2))⟩ : Vec3) =
      ⟨0, (1 - E * Real.cos cexA) /
          Real.sqrt ((-Real.sin cexA) ^ 2 + (E - Real.cos cexA) ^ 2),
        -(E * Real.sin cexA) /
          Real.sqrt ((-Real.sin cexA) ^ 2 + (E - Real.cos cexA) ^ 2)⟩ := by
    apply vec3_eq
    all_goals dsimp only
    · rw [show -Real.sin cexA * (-Real.sin cexA /
          Real.sqrt ((-Real.sin cexA) ^ 2 + (E - Real.cos cexA) ^ 2)) =
          -Real.sin cexA * -Real.sin cexA /
            Real.sqrt ((-Real.sin cexA) ^ 2 + (E - Real.cos cexA) ^ 2) by
        rw [mul_div_assoc]]
      rw [show Real.cos cexA * ((E - Real.cos cexA) /
          Real.sqrt ((-Real.sin cexA) ^ 2 + (E - Real.cos cexA) ^ 2)) =
          Real.cos cexA * (E - Real.cos cexA) /
            Real.sqrt ((-Real.sin cexA) ^ 2 + (E - Real.cos cexA) ^ 2) by
        rw [mul_div_assoc]]
      rw [div_sub_div_same]
      exact congrArg (· / Real.sqrt ((-Real.sin cexA) ^ 2 + (E - Real.cos cexA) ^ 2))
        (by linear_combination hpy)
    · rw [show Real.cos cexA * (-Real.sin cexA /
          Real.sqrt ((-Real.sin cexA) ^ 2 + (E - Real.cos cexA) ^ 2)) =
          Real.cos cexA * -Real.sin cexA /
            Real.sqrt ((-Real.sin cexA) ^ 2 + (E - Real.cos cexA) ^ 2) by
        rw [mul_div_assoc]]
      rw [show -Real.sin cexA * ((E - Real.cos cexA) /
          Real.sqrt ((-Real.sin cexA) ^ 2 + (E - Real.cos cexA) ^ 2)) =
          -Real.sin cexA * (E - Real.cos cexA) /
            Real.sqrt ((-Real.sin cexA) ^ 2 + (E - Real.cos cexA) ^ 2) by
        rw [mul_div_assoc]]
      rw [div_add_div_same]
      exact congrArg (· / Real.sqrt ((-Real.sin cexA) ^ 2 + (E - Real.cos cexA) ^ 2))
        (by ring)
  rw [h6]
  have hy' : (1 - E * Real.cos cexA) /
      Real.sqrt ((-Real.sin cexA) ^ 2 + (E - Real.cos cexA) ^ 2) ≤ 0 := by
    rw [div_nonpos_iff]
    right
    constructor
    · rw [hc]
      linarith
    · exact hL.le
  rw [qSetFromUnitVectors_down _ _
    (by rw [not_lt]; unfold nEPSILON; linarith)]
  congr 1
  apply quat_eq <;> simp [neg_div]

set_option maxHeartbeats 1600000 in
/-- C7: counterexample to the claim as stated.  With shoulder at the origin,
identity parent rotation, unit bones, pole (0,1,0) and direction (0,0,1), a
target at distance 3 and one at the maximum reachable distance 2 produce
different elbow joint orientations: the elbow-to-wrist direction is computed
from the raw (unclamped) target, so the elbow local quaternion depends on
the raw distance.  The solver therefore does not behave identically on the
two targets; only the shoulder orientation and elbow position coincide. -/
theorem ik_clamping_refuted :
    ¬ (∀ (sh pole v : Vec3) (pq : Quat) (u f D : ℝ),
        normV v = 1 → 0 < u → 0 < f → u + f < D →
        (solveTwoBoneIK ⟨sh, pq, u, f⟩ (vadd sh (smulV D v)) pole).shoulderQuat =
          (solveTwoBoneIK ⟨sh, pq, u, f⟩ (vadd sh (smulV (u + f) v)) pole).shoulderQuat ∧
        (solveTwoBoneIK ⟨sh, pq, u, f⟩ (vadd sh (smulV D v)) pole).elbowQuat =
          (solveTwoBoneIK ⟨sh, pq, u, f⟩ (vadd sh (smulV (u + f) v)) pole).elbowQuat) := by
  intro h
  have hcc := (h ⟨0, 0, 0⟩ ⟨0, 1, 0⟩ ⟨0, 0, 1⟩ qId 1 1 3 cex_v_unit one_pos one_pos
    (by norm_num)).2
  rw [show (1:ℝ) + 1 = 2 from by norm_num] at hcc
  rw [cex_elbowQuat 3 (by norm_num) cex_ep1, cex_elbowQuat 2 (by norm_num) cex_ep2] at hcc
  have hc := cexA_cos
  have hs2 := cex_sin_sq
  have hspos := cex_sin_pos
  set s := Real.sin cexA with hsdef
  set c := Real.cos cexA with hcdef
  set L1 := Real.sqrt ((-s) ^ 2 + (3 - c) ^ 2) with hL1def
  set L2 := Real.sqrt ((-s) ^ 2 + (2 - c) ^ 2) with hL2def
  have hL1rad : (0:ℝ) < (-s) ^ 2 + (3 - c) ^ 2 := by nlinarith
  have hL2rad : (0:ℝ) < (-s) ^ 2 + (2 - c) ^ 2 := by nlinarith
  have hL1pos : 0 < L1 := by
    rw [hL1def]
    exact Real.sqrt_pos.mpr hL1rad
  have hL2pos : 0 < L2 := by
    rw [hL2def]
    exact Real.sqrt_pos.mpr hL2rad
  have hL1sq : L1 ^ 2 = (-s) ^ 2 + (3 - c) ^ 2 := by
    rw [hL1def]
    exact Real.sq_sqrt hL1rad.le
  have hL2sq : L2 ^ 2 = (-s) ^ 2 + (2 - c) ^ 2 := by
    rw [hL2def]
    exact Real.sq_sqrt hL2rad.le
  have hL1b : 2.0005 ≤ L1 := by nlinarith [hL1sq, hL1pos]
  have hL2b : L2 ≤ 1.001 := by nlinarith [hL2sq, hL2pos]
  have hy1 : (1 - 3 * c) / L1 ≤ 0 := by
    rw [div_nonpos_iff]
    right
    exact ⟨by rw [hc]; norm_num, hL1pos.le⟩
  have hy2 : (1 - 2 * c) / L2 ≤ 0 := by
    rw [div_nonpos_iff]
    right
    exact ⟨by rw [hc]; norm_num, hL2pos.le⟩
  have hw1pos : (0:ℝ) < (3 * s / L1) ^ 2 + (1 - (1 - 3 * c) / L1) ^ 2 := by
    nlinarith [sq_nonneg (3 * s / L1), hy1]
  have hw2pos : (0:ℝ) < (2 * s / L2) ^ 2 + (1 - (1 - 2 * c) / L2) ^ 2 := by
    nlinarith [sq_nonneg (2 * s / L2), hy2]
  rw [qNormalize_x _ _ hw1pos, qNormalize_x _ _ hw2pos] at hcc
  set M1 := Real.sqrt ((3 * s / L1) ^ 2 + (1 - (1 - 3 * c) / L1) ^ 2) with hM1def
  set M2 := Real.sqrt ((2 * s / L2) ^ 2 + (1 - (1 - 2 * c) / L2) ^ 2) with hM2def
  have hM1pos : 0 < M1 := by
    rw [hM1def]
    exact Real.sqrt_pos.mpr hw1pos
  have hM2pos : 0 < M2 := by
    rw [hM2def]
    exact Real.sqrt_pos.mpr hw2pos
  have hx : 3 * s / L1 / M1 = 2 * s / L2 / M2 := congrArg Quat.x hcc
  have hw : (1 - (1 - 3 * c) / L1) / M1 = (1 - (1 - 2 * c) / L2) / M2 := congrArg Quat.w hcc
  rw [div_eq_div_iff hM1pos.ne' hM2pos.ne'] at hx hw
  have key : ((3 * s / L1) * (1 - (1 - 2 * c) / L2) -
      (2 * s / L2) * (1 - (1 - 3 * c) / L1)) * M2 = 0 := by
    linear_combination (1 - (1 - 2 * c) / L2) * hx - (2 * s / L2) * hw
  have hnum : (3 * s / L1) * (1 - (1 - 2 * c) / L2) -
      (2 * s / L2) * (1 - (1 - 3 * c) / L1) = 0 :=
    (mul_eq_zero.mp key).resolve_right hM2pos.ne'
  have hexp : (3 * s / L1) * (1 - (1 - 2 * c) / L2) -
      (2 * s / L2) * (1 - (1 - 3 * c) / L1) =
      s * (3 * L2 - 2 * L1 - 1) / (L1 * L2) := by
    field_simp
    ring
  rw [hexp] at hnum
  have hnum2 : s * (3 * L2 - 2 * L1 - 1) = 0 :=
    (div_eq_zero_iff.mp hnum).resolve_right (mul_ne_zero hL1pos.ne' hL2pos.ne')
  nlinarith [hspos, hL1b, hL2b, hnum2]
